import Mathlib

set_option linter.unusedVariables false

/-!
Shallow embedding of the CUDA flocking simulation (`src/kernel.cu`) and proofs
about it.  Scalars are modelled exactly: the float arithmetic of the source is
embedded over `ℚ` (so reorderings of sums, which on floats only commute up to
rounding, are exact here), and the two places where the source takes a square
root (`glm::distance` and `glm::length`) are embedded as follows:

* every distance test `glm::distance(a,b) < r` with `r ≥ 0` is embedded as the
  equivalent exact test `dist2 a b < r^2` on squared distances;
* the speed clamp, which really divides by `glm::length`, is embedded over `ℝ`
  with `Real.sqrt`.

Arrays are `List`s indexed with `getD`; a CUDA kernel over `N` threads becomes
a map or fold over `List.range N`.
-/

namespace Boids

/-- `glm::vec3` with exact scalars. -/
structure Vec3 (α : Type) where
  x : α
  y : α
  z : α
deriving DecidableEq

attribute [ext] Vec3

instance {α : Type} [Add α] : Add (Vec3 α) := ⟨fun a b => ⟨a.x + b.x, a.y + b.y, a.z + b.z⟩⟩
instance {α : Type} [Sub α] : Sub (Vec3 α) := ⟨fun a b => ⟨a.x - b.x, a.y - b.y, a.z - b.z⟩⟩
instance {α : Type} [Neg α] : Neg (Vec3 α) := ⟨fun a => ⟨-a.x, -a.y, -a.z⟩⟩
instance {α : Type} [Mul α] : SMul α (Vec3 α) := ⟨fun t a => ⟨t * a.x, t * a.y, t * a.z⟩⟩
instance {α : Type} [Zero α] : Zero (Vec3 α) := ⟨⟨0, 0, 0⟩⟩

/-- Squared Euclidean distance.  `glm::distance(a,b) < r` (with `0 ≤ r`) is
embedded as `dist2 a b < r^2`. -/
def dist2 (a b : Vec3 ℚ) : ℚ := (a.x - b.x) ^ 2 + (a.y - b.y) ^ 2 + (a.z - b.z) ^ 2

/-- `#define rule1Distance 5.0f` -/
def rule1Distance : ℚ := 5
/-- `#define rule2Distance 3.0f` -/
def rule2Distance : ℚ := 3
/-- `#define rule3Distance 5.0f` -/
def rule3Distance : ℚ := 5
/-- `#define rule1Scale 0.01f` -/
def rule1Scale : ℚ := 1 / 100
/-- `#define rule2Scale 0.1f` -/
def rule2Scale : ℚ := 1 / 10
/-- `#define rule3Scale 0.1f` -/
def rule3Scale : ℚ := 1 / 10
/-- `#define maxSpeed 1.0f` -/
def maxSpeed : ℚ := 1
/-- `#define scene_scale 100.0f` -/
def scene_scale : ℚ := 100

/-- The running accumulator of `computeVelocityChange` / `computeVelScattered` /
`computeVelCoherent`: `perceived_center`, `c`, `perceived_velocity` and the two
neighbor counts. -/
structure Accum where
  perceived_center : Vec3 ℚ
  c : Vec3 ℚ
  perceived_velocity : Vec3 ℚ
  rule1_neighbor_count : ℤ
  rule3_neighbor_count : ℤ
deriving DecidableEq

attribute [ext] Accum

/-- The three distance tests and accumulator updates applied to one candidate
neighbor.  This loop body is shared verbatim by `computeVelocityChange`,
`computeVelScattered` and `computeVelCoherent` in the source. -/
def ruleStep (pSelf pj vj : Vec3 ℚ) (a : Accum) : Accum :=
  let distance2 := dist2 pSelf pj
  let a1 := if distance2 < rule1Distance ^ 2 then
    { a with perceived_center := a.perceived_center + pj,
             rule1_neighbor_count := a.rule1_neighbor_count + 1 } else a
  let a2 := if distance2 < rule2Distance ^ 2 then
    { a1 with c := a1.c - (pj - pSelf) } else a1
  if distance2 < rule3Distance ^ 2 then
    { a2 with perceived_velocity := a2.perceived_velocity + vj,
              rule3_neighbor_count := a2.rule3_neighbor_count + 1 } else a2

/-- Initial (all zero) accumulator. -/
def accum0 : Accum := ⟨0, 0, 0, 0, 0⟩

/-- The tail of `computeVelocityChange` (and of the two neighbor-search
kernels): average the rule-1 and rule-3 sums when their counts are positive and
combine the three scaled rule contributions. -/
def finishChange (pSelf : Vec3 ℚ) (a : Accum) : Vec3 ℚ :=
  let perceived_center := if 0 < a.rule1_neighbor_count then
    ((a.rule1_neighbor_count : ℚ))⁻¹ • a.perceived_center else a.perceived_center
  let perceived_velocity := if 0 < a.rule3_neighbor_count then
    ((a.rule3_neighbor_count : ℚ))⁻¹ • a.perceived_velocity else a.perceived_velocity
  rule1Scale • (perceived_center - pSelf) + rule2Scale • a.c + rule3Scale • perceived_velocity

/-- `computeVelocityChange` (brute force): loop over all `N` boids, skipping
`iSelf`, then combine. -/
def computeVelocityChange (N iSelf : ℕ) (pos vel : List (Vec3 ℚ)) : Vec3 ℚ :=
  let pSelf := pos.getD iSelf 0
  finishChange pSelf <| (List.range N).foldl
    (fun a i => if i = iSelf then a else ruleStep pSelf (pos.getD i 0) (vel.getD i 0) a)
    accum0

/-- Interpret an exact rational state over the reals (where the speed clamp,
which takes a square root, lives). -/
def toR (v : Vec3 ℚ) : Vec3 ℝ := ⟨(v.x : ℝ), (v.y : ℝ), (v.z : ℝ)⟩

/-- Squared length over `ℝ`. -/
def norm2R (v : Vec3 ℝ) : ℝ := v.x ^ 2 + v.y ^ 2 + v.z ^ 2

/-- `glm::length` over `ℝ`. -/
noncomputable def lengthR (v : Vec3 ℝ) : ℝ := Real.sqrt (norm2R v)

/-- The speed clamp at the end of every velocity-update kernel:
`if (speed > maxSpeed) new_vel = new_vel / speed * maxSpeed`. -/
noncomputable def clampSpeed (v : Vec3 ℝ) : Vec3 ℝ :=
  let speed := lengthR v
  if (maxSpeed : ℝ) < speed then (((maxSpeed : ℚ) : ℝ) / speed) • v else v

/-- `kernUpdateVelocityBruteForce`, split as the exact pre-clamp sum
(`vel1[index] + computeVelocityChange(...)`). -/
def bruteForcePreVel (N : ℕ) (pos vel1 : List (Vec3 ℚ)) (index : ℕ) : Vec3 ℚ :=
  vel1.getD index 0 + computeVelocityChange N index pos vel1

/-- `kernUpdateVelocityBruteForce`: compute the new velocity from `pos` and
`vel1`, clamp the speed, record into `vel2`. -/
noncomputable def kernUpdateVelocityBruteForce (N : ℕ) (pos vel1 : List (Vec3 ℚ)) :
    List (Vec3 ℝ) :=
  (List.range N).map fun index => clampSpeed (toR (bruteForcePreVel N pos vel1 index))

/-- One axis of the wrap at the end of `kernUpdatePos`: a coordinate below the
negative scene bound is reset to the positive bound, then a coordinate above
the positive bound is reset to the negative bound. -/
def wrapCoord {α : Type} [LinearOrderedField α] (sceneScale : α) (t : α) : α :=
  let t1 := if t < -sceneScale then sceneScale else t
  if sceneScale < t1 then -sceneScale else t1

/-- `kernUpdatePos` for one boid: `thisPos += vel[index] * dt`, then wrap each
axis independently.  Generic in the scalar so it serves both the exact (`ℚ`)
statements and the post-clamp (`ℝ`) pipeline. -/
def kernUpdatePos {α : Type} [LinearOrderedField α] (sceneScale : α) (dt : α)
    (p v : Vec3 α) : Vec3 α :=
  let thisPos := p + dt • v
  ⟨wrapCoord sceneScale thisPos.x, wrapCoord sceneScale thisPos.y, wrapCoord sceneScale thisPos.z⟩

/-! ### The uniform grid -/

/-- C's `(int)` cast applied to a float: truncation toward zero. -/
def truncQ (q : ℚ) : ℤ := if 0 ≤ q then ⌊q⌋ else ⌈q⌉

/-- `gridIndex3Dto1D`: `x + y * gridResolution + z * gridResolution * gridResolution`. -/
def gridIndex3Dto1D (x y z gridResolution : ℤ) : ℤ :=
  x + y * gridResolution + z * gridResolution * gridResolution

/-- The cell id computed by `kernComputeIndices` for one position: truncate
`(pos - gridMin) * inverseCellWidth` per axis, clamp each coordinate into
`[0, gridResolution - 1]`, flatten. -/
def computeCell (gridResolution : ℤ) (gridMin : Vec3 ℚ) (inverseCellWidth : ℚ)
    (p : Vec3 ℚ) : ℤ :=
  let relative := p - gridMin
  let x := truncQ (relative.x * inverseCellWidth)
  let y := truncQ (relative.y * inverseCellWidth)
  let z := truncQ (relative.z * inverseCellWidth)
  let xc := max 0 (min x (gridResolution - 1))
  let yc := max 0 (min y (gridResolution - 1))
  let zc := max 0 (min z (gridResolution - 1))
  gridIndex3Dto1D xc yc zc gridResolution

/-- `kernComputeIndices`: `indices[i] = i` and `gridIndices[i]` is the cell id
of boid `i`. -/
def kernComputeIndices (N : ℕ) (gridResolution : ℤ) (gridMin : Vec3 ℚ)
    (inverseCellWidth : ℚ) (pos : List (Vec3 ℚ)) : List ℤ × List ℤ :=
  ((List.range N).map (fun index => Int.ofNat index),
   (List.range N).map (fun index =>
     computeCell gridResolution gridMin inverseCellWidth (pos.getD index 0)))

/-- `kernResetIntBuffer`: the whole int buffer holds `value`.  The range tables
are modelled as functions from cell id to stored int. -/
def kernResetIntBuffer (value : ℤ) : ℤ → ℤ := fun _ => value

/-- The start-write guard of `kernIdentifyCellStartEnd`:
`index == 0 || gridIndex != particleGridIndices[index - 1]`. -/
abbrev startCondition (S : List ℤ) (index : ℕ) : Prop :=
  index = 0 ∨ S.getD (index - 1) 0 ≠ S.getD index 0

/-- The end-write guard of `kernIdentifyCellStartEnd`:
`index == N - 1 || gridIndex != particleGridIndices[index + 1]`. -/
abbrev endCondition (S : List ℤ) (index : ℕ) : Prop :=
  index = S.length - 1 ∨ S.getD (index + 1) 0 ≠ S.getD index 0

/-- The body of `kernIdentifyCellStartEnd` for sorted position `index`: write
`start[gridIndex] = index` when `index == 0` or the previous key differs, and
`end[gridIndex] = index` when `index == N - 1` or the next key differs. -/
def identifyStep (S : List ℤ) (se : (ℤ → ℤ) × (ℤ → ℤ)) (index : ℕ) : (ℤ → ℤ) × (ℤ → ℤ) :=
  let gridIndex := S.getD index 0
  let st := if startCondition S index then
    (fun cell => if cell = gridIndex then (index : ℤ) else se.1 cell) else se.1
  let en := if endCondition S index then
    (fun cell => if cell = gridIndex then (index : ℤ) else se.2 cell) else se.2
  (st, en)

/-- `kernIdentifyCellStartEnd` run over the first `m` sorted positions. -/
def identifyPartial (S : List ℤ) (m : ℕ) : (ℤ → ℤ) × (ℤ → ℤ) :=
  (List.range m).foldl (identifyStep S) (kernResetIntBuffer (-1), kernResetIntBuffer (-1))

/-- `kernIdentifyCellStartEnd` run over all `N` sorted positions, starting from
both tables reset to the sentinel `-1` (the two `kernResetIntBuffer` launches
that precede it in the step drivers). -/
def kernIdentifyCellStartEnd (S : List ℤ) : (ℤ → ℤ) × (ℤ → ℤ) :=
  identifyPartial S S.length

/-- Integer interval `[a, b]` as a list (the `for (int i = start; i <= end; i++)`
loop domain). -/
def intRange (a b : ℤ) : List ℤ :=
  (List.range (b + 1 - a).toNat).map (fun t : ℕ => a + (t : ℤ))

/-- The slots a neighbor-search kernel iterates for one cell: empty when the
range entry is the sentinel (`start == -1 || end == -1 || start > end`),
otherwise `[start, end]` inclusive. -/
def cellSlots (startF endF : ℤ → ℤ) (gridIndex : ℤ) : List ℤ :=
  let start := startF gridIndex
  let stop := endF gridIndex
  if start = -1 ∨ stop = -1 ∨ stop < start then [] else intRange start stop

/-- Inner loop body of `computeVelScattered`: fetch `boid_index` from the token
array, skip it when negative or equal to `iSelf`, else apply the three rules. -/
def scatterBody (iSelf : ℕ) (particleArrayIndices : List ℤ) (pos vel : List (Vec3 ℚ))
    (a : Accum) (i : ℤ) : Accum :=
  let boid_index := particleArrayIndices.getD i.toNat 0
  if boid_index < 0 ∨ boid_index = (iSelf : ℤ) then a
  else ruleStep (pos.getD iSelf 0) (pos.getD boid_index.toNat 0) (vel.getD boid_index.toNat 0) a

/-- `computeVelScattered`: accumulate the rules over one cell's range, reading
boid indices through the token array. -/
def computeVelScattered (iSelf : ℕ) (startF endF : ℤ → ℤ) (particleArrayIndices : List ℤ)
    (pos vel : List (Vec3 ℚ)) (gridIndex : ℤ) (a : Accum) : Accum :=
  (cellSlots startF endF gridIndex).foldl (scatterBody iSelf particleArrayIndices pos vel) a

/-- Inner loop body of `computeVelCoherent`: slot `i` indexes the reordered
data directly; only the self slot is skipped. -/
def coherentBody (iSelf : ℕ) (pos vel : List (Vec3 ℚ)) (a : Accum) (i : ℤ) : Accum :=
  if i = (iSelf : ℤ) then a
  else ruleStep (pos.getD iSelf 0) (pos.getD i.toNat 0) (vel.getD i.toNat 0) a

/-- `computeVelCoherent`: accumulate the rules over one cell's range on the
reordered arrays. -/
def computeVelCoherent (iSelf : ℕ) (startF endF : ℤ → ℤ) (pos vel : List (Vec3 ℚ))
    (gridIndex : ℤ) (a : Accum) : Accum :=
  (cellSlots startF endF gridIndex).foldl (coherentBody iSelf pos vel) a

/-- One axis of the biased neighbor-cell loop bounds:
`for (int i = (frac < 0.5f ? -1 : 0); i <= (frac > 0.5f ? 1 : 0); i++)`. -/
def biasedOffsets (frac : ℚ) : List ℤ :=
  intRange (if frac < 1 / 2 then -1 else 0) (if 1 / 2 < frac then 1 else 0)

/-- The common loop shape of both neighbor-cell scans: for each offset triple
(`i -> j -> k` order) skip cells outside the grid (`newX < 0 || newX >=
gridResolution || ...`) and flatten the rest. -/
def scanCells (gridResolution x y z : ℤ) (ox oy oz : List ℤ) : List ℤ :=
  ox.flatMap fun i =>
    oy.flatMap fun j =>
      oz.filterMap fun k =>
        if x + i < 0 ∨ gridResolution ≤ x + i ∨ y + j < 0 ∨ gridResolution ≤ y + j ∨
            z + k < 0 ∨ gridResolution ≤ z + k then none
        else some (gridIndex3Dto1D (x + i) (y + j) (z + k) gridResolution)

/-- The cells visited by the biased scan of `kernUpdateVelNeighborSearchScattered`
and `...Coherent` (the default `i -> j -> k` order): the boid's cell coordinates
via `floorf`, per-axis biased offsets from the fractional position, cells
outside the grid skipped. -/
def visitedCellIds (gridResolution : ℤ) (gridMin : Vec3 ℚ) (inverseCellWidth : ℚ)
    (boid_pos : Vec3 ℚ) : List ℤ :=
  let relative := boid_pos - gridMin
  let x_pos := relative.x * inverseCellWidth
  let y_pos := relative.y * inverseCellWidth
  let z_pos := relative.z * inverseCellWidth
  let x := ⌊x_pos⌋
  let y := ⌊y_pos⌋
  let z := ⌊z_pos⌋
  let x_frac := x_pos - (x : ℚ)
  let y_frac := y_pos - (y : ℚ)
  let z_frac := z_pos - (z : ℚ)
  scanCells gridResolution x y z
    (biasedOffsets x_frac) (biasedOffsets y_frac) (biasedOffsets z_frac)

/-- The 27-cell variant of the neighbor-cell loop (the `SINGLE_DISTANCE_MODE`
branch of the source): offsets `-1..1` on every axis, same bounds check. -/
def visitedCellIds27 (gridResolution : ℤ) (gridMin : Vec3 ℚ) (inverseCellWidth : ℚ)
    (boid_pos : Vec3 ℚ) : List ℤ :=
  let relative := boid_pos - gridMin
  let x := ⌊relative.x * inverseCellWidth⌋
  let y := ⌊relative.y * inverseCellWidth⌋
  let z := ⌊relative.z * inverseCellWidth⌋
  scanCells gridResolution x y z (intRange (-1) 1) (intRange (-1) 1) (intRange (-1) 1)

/-- Pre-clamp velocity of `kernUpdateVelNeighborSearchScattered` for one boid:
accumulate over the visited cells, average, combine with `vel1[index]`. -/
def scatteredPreVel (N : ℕ) (gridResolution : ℤ) (gridMin : Vec3 ℚ) (inverseCellWidth : ℚ)
    (startF endF : ℤ → ℤ) (particleArrayIndices : List ℤ) (pos vel1 : List (Vec3 ℚ))
    (index : ℕ) : Vec3 ℚ :=
  let boid_pos := pos.getD index 0
  let a := (visitedCellIds gridResolution gridMin inverseCellWidth boid_pos).foldl
    (fun a cid => computeVelScattered index startF endF particleArrayIndices pos vel1 cid a)
    accum0
  vel1.getD index 0 + finishChange boid_pos a

/-- `kernUpdateVelNeighborSearchScattered`: biased grid scan, rules, clamp. -/
noncomputable def kernUpdateVelNeighborSearchScattered (N : ℕ) (gridResolution : ℤ)
    (gridMin : Vec3 ℚ) (inverseCellWidth : ℚ) (startF endF : ℤ → ℤ)
    (particleArrayIndices : List ℤ) (pos vel1 : List (Vec3 ℚ)) : List (Vec3 ℝ) :=
  (List.range N).map fun index =>
    clampSpeed (toR (scatteredPreVel N gridResolution gridMin inverseCellWidth
      startF endF particleArrayIndices pos vel1 index))

/-- Pre-clamp velocity of `kernUpdateVelNeighborSearchCoherent` for one slot. -/
def coherentPreVel (N : ℕ) (gridResolution : ℤ) (gridMin : Vec3 ℚ) (inverseCellWidth : ℚ)
    (startF endF : ℤ → ℤ) (pos vel1 : List (Vec3 ℚ)) (index : ℕ) : Vec3 ℚ :=
  let boid_pos := pos.getD index 0
  let a := (visitedCellIds gridResolution gridMin inverseCellWidth boid_pos).foldl
    (fun a cid => computeVelCoherent index startF endF pos vel1 cid a) accum0
  vel1.getD index 0 + finishChange boid_pos a

/-- `kernUpdateVelNeighborSearchCoherent`: like the scattered kernel with one
less level of indirection. -/
noncomputable def kernUpdateVelNeighborSearchCoherent (N : ℕ) (gridResolution : ℤ)
    (gridMin : Vec3 ℚ) (inverseCellWidth : ℚ) (startF endF : ℤ → ℤ)
    (pos vel1 : List (Vec3 ℚ)) : List (Vec3 ℝ) :=
  (List.range N).map fun index =>
    clampSpeed (toR (coherentPreVel N gridResolution gridMin inverseCellWidth
      startF endF pos vel1 index))

/-- `kernReorderData`: `dst[index] = src[indices[index]]` for both arrays. -/
def kernReorderData (N : ℕ) (pos_src vel_src : List (Vec3 ℚ)) (indices : List ℤ) :
    List (Vec3 ℚ) × List (Vec3 ℚ) :=
  ((List.range N).map fun index => pos_src.getD (indices.getD index 0).toNat 0,
   (List.range N).map fun index => vel_src.getD (indices.getD index 0).toNat 0)

/-! ### The step drivers -/

/-- `thrust::sort_by_key`: sort the (cell id, boid index) pairs ascending by
cell id.  The source uses an unspecified unstable sort; `mergeSort` is one
admissible instance, and none of the theorems below depend on tie order. -/
def sortPairs (keys vals : List ℤ) : List (ℤ × ℤ) :=
  (keys.zip vals).mergeSort (fun a b => a.1 ≤ b.1)

/-- Cell ids produced by `kernComputeIndices` in the grid step drivers. -/
def pipelineCellIds (N : ℕ) (gridResolution : ℤ) (gridMin : Vec3 ℚ) (inverseCellWidth : ℚ)
    (pos : List (Vec3 ℚ)) : List ℤ :=
  (kernComputeIndices N gridResolution gridMin inverseCellWidth pos).2

/-- The sorted (cell id, boid index) pairs of the grid step drivers. -/
def pipelineSorted (N : ℕ) (gridResolution : ℤ) (gridMin : Vec3 ℚ) (inverseCellWidth : ℚ)
    (pos : List (Vec3 ℚ)) : List (ℤ × ℤ) :=
  sortPairs (pipelineCellIds N gridResolution gridMin inverseCellWidth pos)
    (kernComputeIndices N gridResolution gridMin inverseCellWidth pos).1

/-- `dev_particleGridIndices` after the sort. -/
def sortedKeys (N : ℕ) (gridResolution : ℤ) (gridMin : Vec3 ℚ) (inverseCellWidth : ℚ)
    (pos : List (Vec3 ℚ)) : List ℤ :=
  (pipelineSorted N gridResolution gridMin inverseCellWidth pos).map Prod.fst

/-- `dev_particleArrayIndices` after the sort. -/
def sortedVals (N : ℕ) (gridResolution : ℤ) (gridMin : Vec3 ℚ) (inverseCellWidth : ℚ)
    (pos : List (Vec3 ℚ)) : List ℤ :=
  (pipelineSorted N gridResolution gridMin inverseCellWidth pos).map Prod.snd

/-- `Boids::stepSimulationNaive`: brute-force velocity update, position update
with the new velocities, ping-pong.  Result: (positions, velocities) after the
step. -/
noncomputable def stepSimulationNaive (N : ℕ) (dt : ℚ) (pos vel1 : List (Vec3 ℚ)) :
    List (Vec3 ℝ) × List (Vec3 ℝ) :=
  let vel2 := kernUpdateVelocityBruteForce N pos vel1
  let posOut := (List.range N).map fun index =>
    kernUpdatePos ((scene_scale : ℚ) : ℝ) ((dt : ℚ) : ℝ) (toR (pos.getD index 0))
      (vel2.getD index 0)
  (posOut, vel2)

/-- `Boids::stepSimulationScatteredGrid`: index, sort, reset + identify ranges,
scattered neighbor search, position update, ping-pong.  Result: (positions,
velocities) after the step. -/
noncomputable def stepSimulationScatteredGrid (gridResolution : ℤ) (gridMin : Vec3 ℚ)
    (cellWidth : ℚ) (N : ℕ) (dt : ℚ) (pos vel1 : List (Vec3 ℚ)) :
    List (Vec3 ℝ) × List (Vec3 ℝ) :=
  let inverseCellWidth := 1 / cellWidth
  let vals := sortedVals N gridResolution gridMin inverseCellWidth pos
  let se := kernIdentifyCellStartEnd (sortedKeys N gridResolution gridMin inverseCellWidth pos)
  let vel2 := kernUpdateVelNeighborSearchScattered N gridResolution gridMin inverseCellWidth
    se.1 se.2 vals pos vel1
  let posOut := (List.range N).map fun index =>
    kernUpdatePos ((scene_scale : ℚ) : ℝ) ((dt : ℚ) : ℝ) (toR (pos.getD index 0))
      (vel2.getD index 0)
  (posOut, vel2)

/-- `Boids::stepSimulationCoherentGrid`: index, sort, reset + identify ranges,
reorder, coherent neighbor search, position update on the reordered positions,
copy back.  Result: (positions, velocities) after the step. -/
noncomputable def stepSimulationCoherentGrid (gridResolution : ℤ) (gridMin : Vec3 ℚ)
    (cellWidth : ℚ) (N : ℕ) (dt : ℚ) (pos vel1 : List (Vec3 ℚ)) :
    List (Vec3 ℝ) × List (Vec3 ℝ) :=
  let inverseCellWidth := 1 / cellWidth
  let vals := sortedVals N gridResolution gridMin inverseCellWidth pos
  let se := kernIdentifyCellStartEnd (sortedKeys N gridResolution gridMin inverseCellWidth pos)
  let reordered := kernReorderData N pos vel1 vals
  let vel2 := kernUpdateVelNeighborSearchCoherent N gridResolution gridMin inverseCellWidth
    se.1 se.2 reordered.1 reordered.2
  let posOut := (List.range N).map fun index =>
    kernUpdatePos ((scene_scale : ℚ) : ℝ) ((dt : ℚ) : ℝ) (toR (reordered.1.getD index 0))
      (vel2.getD index 0)
  (posOut, vel2)

/-! ### `Boids::initSimulation` -/

/-- `gridCellWidth` as computed by `initSimulation` (default mode:
`2.0f * std::max(...)`). -/
def initGridCellWidth : ℚ := 2 * max (max rule1Distance rule2Distance) rule3Distance

/-- `halfSideCount = (int)(scene_scale / gridCellWidth) + 1`. -/
def initHalfSideCount : ℤ := truncQ (scene_scale / initGridCellWidth) + 1

/-- `gridSideCount = 2 * halfSideCount`. -/
def initGridSideCount : ℤ := 2 * initHalfSideCount

/-- `gridCellCount = gridSideCount^3`. -/
def initGridCellCount : ℤ := initGridSideCount * initGridSideCount * initGridSideCount

/-- `gridMinimum`, the zero-initialized global decremented by
`halfGridWidth = gridCellWidth * halfSideCount` on each axis. -/
def initGridMinimum : Vec3 ℚ :=
  ⟨0 - initGridCellWidth * (initHalfSideCount : ℚ),
   0 - initGridCellWidth * (initHalfSideCount : ℚ),
   0 - initGridCellWidth * (initHalfSideCount : ℚ)⟩

/-- Observable outcome of `Boids::initSimulation`: the device buffer
allocations it issues (name and element count, in program order) and the grid
parameters it computes.  The source body is straight-line code: there is no
branch that could reject a configuration. -/
structure InitResult where
  allocs : List (String × ℤ)
  gridCellWidth : ℚ
  gridSideCount : ℤ
  gridCellCount : ℤ
  gridMinimum : Vec3 ℚ
deriving DecidableEq

/-- `Boids::initSimulation(N)`, embedded as the sequence of buffer allocations
it requests plus the grid parameters it stores. -/
def initSimulation (N : ℤ) : InitResult :=
  { allocs := [("dev_pos", N), ("dev_vel1", N), ("dev_vel2", N),
               ("dev_particleArrayIndices", N), ("dev_particleGridIndices", N),
               ("dev_gridCellStartIndices", initGridCellCount),
               ("dev_gridCellEndIndices", initGridCellCount),
               ("dev_pos_temp", N), ("dev_vel1_temp", N)]
    gridCellWidth := initGridCellWidth
    gridSideCount := initGridSideCount
    gridCellCount := initGridCellCount
    gridMinimum := initGridMinimum }

/-- Indices into `pos`/`vel` read by one iteration of the `computeVelScattered`
loop: none when the fetched `boid_index` is negative or the self index,
otherwise exactly that boid. -/
def scatterReads (iSelf : ℕ) (particleArrayIndices : List ℤ) (i : ℤ) : List ℕ :=
  let boid_index := particleArrayIndices.getD i.toNat 0
  if boid_index < 0 ∨ boid_index = (iSelf : ℤ) then [] else [boid_index.toNat]

/-! ### Proof-device definitions for the strategy-equivalence claims -/

/-- Componentwise addition of accumulators (the per-candidate updates of
`ruleStep` commute, which is what makes the different iteration orders of the
three strategies agree exactly in this exact-arithmetic model). -/
def addAccum (a b : Accum) : Accum :=
  ⟨a.perceived_center + b.perceived_center, a.c + b.c,
   a.perceived_velocity + b.perceived_velocity,
   a.rule1_neighbor_count + b.rule1_neighbor_count,
   a.rule3_neighbor_count + b.rule3_neighbor_count⟩

instance : Zero Accum := ⟨accum0⟩
instance : Add Accum := ⟨addAccum⟩

instance : AddCommMonoid Accum where
  add := (· + ·)
  zero := 0
  nsmul := nsmulRec
  add_assoc a b d := by
    show addAccum (addAccum a b) d = addAccum a (addAccum b d)
    unfold addAccum
    ext <;> exact add_assoc _ _ _
  zero_add a := by
    show addAccum accum0 a = a
    unfold addAccum accum0
    ext <;> exact zero_add _
  add_zero a := by
    show addAccum a accum0 = a
    unfold addAccum accum0
    ext <;> exact add_zero _
  add_comm a b := by
    show addAccum a b = addAccum b a
    unfold addAccum
    ext <;> exact add_comm _ _

/-- The contribution of a single candidate neighbor to the accumulator. -/
def contribA (pSelf pj vj : Vec3 ℚ) : Accum := ruleStep pSelf pj vj accum0

/-- What one scattered-loop iteration adds to the accumulator. -/
def scatterDelta (iSelf : ℕ) (particleArrayIndices : List ℤ) (pos vel : List (Vec3 ℚ))
    (i : ℤ) : Accum :=
  let boid_index := particleArrayIndices.getD i.toNat 0
  if boid_index < 0 ∨ boid_index = (iSelf : ℤ) then 0
  else contribA (pos.getD iSelf 0) (pos.getD boid_index.toNat 0) (vel.getD boid_index.toNat 0)

/-- What one coherent-loop iteration adds to the accumulator. -/
def coherentDelta (iSelf : ℕ) (pos vel : List (Vec3 ℚ)) (i : ℤ) : Accum :=
  if i = (iSelf : ℤ) then 0
  else contribA (pos.getD iSelf 0) (pos.getD i.toNat 0) (vel.getD i.toNat 0)

/-- What one brute-force-loop iteration adds to the accumulator. -/
def bruteDelta (iSelf : ℕ) (pos vel : List (Vec3 ℚ)) (i : ℕ) : Accum :=
  if i = iSelf then 0
  else contribA (pos.getD iSelf 0) (pos.getD i 0) (vel.getD i 0)

/-- The cell id `kernComputeIndices` assigns to boid `j`. -/
def cellOf (gridResolution : ℤ) (gridMin : Vec3 ℚ) (inverseCellWidth : ℚ)
    (pos : List (Vec3 ℚ)) (j : ℕ) : ℤ :=
  computeCell gridResolution gridMin inverseCellWidth (pos.getD j 0)

/-- A position lies strictly inside the grid volume `[gridMin, gridMin + R*w)³`
(all wrapped simulation-domain positions do, since the grid overshoots the
domain by one cell per side). -/
def inGrid (R : ℤ) (gridMin : Vec3 ℚ) (w : ℚ) (p : Vec3 ℚ) : Prop :=
  0 ≤ p.x - gridMin.x ∧ p.x - gridMin.x < R * w ∧
  0 ≤ p.y - gridMin.y ∧ p.y - gridMin.y < R * w ∧
  0 ≤ p.z - gridMin.z ∧ p.z - gridMin.z < R * w

/-- The boid indices a neighbor scan over `cells` accumulates that lie strictly
within distance `r` of boid `i` (the "set of in-range neighbors it
accumulates" of claim C2): walk every visited cell's range, read the token,
keep the non-skipped in-range ones. -/
def accumulatedNeighbors (startF endF : ℤ → ℤ) (vals : List ℤ) (pos : List (Vec3 ℚ))
    (i : ℕ) (r : ℚ) (cells : List ℤ) : List ℤ :=
  ((cells.flatMap (cellSlots startF endF)).map (fun s => vals.getD s.toNat 0)).filter
    (fun b => ¬ b < 0 ∧ b ≠ (i : ℤ) ∧ dist2 (pos.getD i 0) (pos.getD b.toNat 0) < r ^ 2)

/-- Behavior of the speed clamp, named so the claim-C5 witness can restate it:
the clamped speed never exceeds `maxSpeed`; an input at or below the cap is
written unchanged; an input above the cap is rescaled to speed exactly
`maxSpeed` with direction preserved (a positive multiple of the input). -/
def SpeedClampSpec : Prop :=
  ∀ v : Vec3 ℝ,
    lengthR (clampSpeed v) ≤ ((maxSpeed : ℚ) : ℝ) ∧
    (lengthR v ≤ ((maxSpeed : ℚ) : ℝ) → clampSpeed v = v) ∧
    (((maxSpeed : ℚ) : ℝ) < lengthR v →
      lengthR (clampSpeed v) = ((maxSpeed : ℚ) : ℝ) ∧ ∃ t : ℝ, 0 < t ∧ clampSpeed v = t • v)

/-- The three range-table invariants of claim C3 for a sorted key array `S`:
every sorted position `k` lies in `[start[S[k]], end[S[k]]]`; ranges of
distinct occurring keys are disjoint; keys that never occur keep the sentinel
`-1` in both tables. -/
def RangeTableSpec (S : List ℤ) : Prop :=
  (∀ k, k < S.length →
    (kernIdentifyCellStartEnd S).1 (S.getD k 0) ≤ (k : ℤ) ∧
    (k : ℤ) ≤ (kernIdentifyCellStartEnd S).2 (S.getD k 0)) ∧
  (∀ c d, c ∈ S → d ∈ S → c ≠ d → ∀ t : ℤ,
    ¬((kernIdentifyCellStartEnd S).1 c ≤ t ∧ t ≤ (kernIdentifyCellStartEnd S).2 c ∧
      (kernIdentifyCellStartEnd S).1 d ≤ t ∧ t ≤ (kernIdentifyCellStartEnd S).2 d)) ∧
  (∀ c, c ∉ S → (kernIdentifyCellStartEnd S).1 c = -1 ∧ (kernIdentifyCellStartEnd S).2 c = -1)

/-! ### End of definitions; theorems follow -/

@[simp] theorem Vec3.add_x {α : Type} [Add α] (a b : Vec3 α) : (a + b).x = a.x + b.x := rfl
@[simp] theorem Vec3.add_y {α : Type} [Add α] (a b : Vec3 α) : (a + b).y = a.y + b.y := rfl
@[simp] theorem Vec3.add_z {α : Type} [Add α] (a b : Vec3 α) : (a + b).z = a.z + b.z := rfl
@[simp] theorem Vec3.sub_x {α : Type} [Sub α] (a b : Vec3 α) : (a - b).x = a.x - b.x := rfl
@[simp] theorem Vec3.sub_y {α : Type} [Sub α] (a b : Vec3 α) : (a - b).y = a.y - b.y := rfl
@[simp] theorem Vec3.sub_z {α : Type} [Sub α] (a b : Vec3 α) : (a - b).z = a.z - b.z := rfl
@[simp] theorem Vec3.smul_x {α : Type} [Mul α] (t : α) (a : Vec3 α) : (t • a).x = t * a.x := rfl
@[simp] theorem Vec3.smul_y {α : Type} [Mul α] (t : α) (a : Vec3 α) : (t • a).y = t * a.y := rfl
@[simp] theorem Vec3.smul_z {α : Type} [Mul α] (t : α) (a : Vec3 α) : (t • a).z = t * a.z := rfl
@[simp] theorem Vec3.zero_x {α : Type} [Zero α] : (0 : Vec3 α).x = 0 := rfl
@[simp] theorem Vec3.zero_y {α : Type} [Zero α] : (0 : Vec3 α).y = 0 := rfl
@[simp] theorem Vec3.zero_z {α : Type} [Zero α] : (0 : Vec3 α).z = 0 := rfl

theorem getD_map_range {β : Type} (f : ℕ → β) {n i : ℕ} (h : i < n) (d : β) :
    ((List.range n).map f).getD i d = f i := by
  rw [List.getD_eq_getElem _ _ (by simpa using h)]
  simp

/-! ### Claim theorems: position integrator (C6) -/

/-- **C6.** The position integrator computes `position + velocity * dt` and then,
independently per axis, resets a coordinate below `-scene_scale` to
`scene_scale` and a coordinate above `scene_scale` to `-scene_scale` (a single
hard wrap); consequently every coordinate lies in `[-scene_scale, scene_scale]`
after integration. -/
theorem claimC6 (dt : ℚ) (p v : Vec3 ℚ) :
    kernUpdatePos scene_scale dt p v =
      ⟨wrapCoord scene_scale (p.x + v.x * dt), wrapCoord scene_scale (p.y + v.y * dt),
       wrapCoord scene_scale (p.z + v.z * dt)⟩ ∧
    (∀ t : ℚ, (t < -scene_scale → wrapCoord scene_scale t = scene_scale) ∧
      (scene_scale < t → wrapCoord scene_scale t = -scene_scale) ∧
      (-scene_scale ≤ t → t ≤ scene_scale → wrapCoord scene_scale t = t)) ∧
    (-scene_scale ≤ (kernUpdatePos scene_scale dt p v).x ∧
      (kernUpdatePos scene_scale dt p v).x ≤ scene_scale) ∧
    (-scene_scale ≤ (kernUpdatePos scene_scale dt p v).y ∧
      (kernUpdatePos scene_scale dt p v).y ≤ scene_scale) ∧
    (-scene_scale ≤ (kernUpdatePos scene_scale dt p v).z ∧
      (kernUpdatePos scene_scale dt p v).z ≤ scene_scale) := by
  have hwrap : ∀ t : ℚ, -scene_scale ≤ wrapCoord scene_scale t ∧
      wrapCoord scene_scale t ≤ scene_scale := by
    intro t
    have h0 : (0 : ℚ) ≤ scene_scale := by norm_num [scene_scale]
    simp only [wrapCoord]
    split_ifs <;> constructor <;> linarith
  refine ⟨?_, ?_, ?_, ?_, ?_⟩
  · unfold kernUpdatePos
    ext <;> simp <;> ring_nf
  · intro t
    have h0 : (0 : ℚ) ≤ scene_scale := by norm_num [scene_scale]
    simp only [wrapCoord]
    refine ⟨fun h => ?_, fun h => ?_, fun h1 h2 => ?_⟩ <;>
      · split_ifs <;> first | rfl | linarith
  · exact hwrap _
  · exact hwrap _
  · exact hwrap _

/-! ### Claim theorems: grid indexer (C7) -/

/-- Flattening coordinates in `[0, R-1]` gives an id in `[0, R^3)`. -/
theorem gridIndex3Dto1D_bounds {R x y z : ℤ} (hR : 1 ≤ R)
    (hx0 : 0 ≤ x) (hx1 : x ≤ R - 1) (hy0 : 0 ≤ y) (hy1 : y ≤ R - 1)
    (hz0 : 0 ≤ z) (hz1 : z ≤ R - 1) :
    0 ≤ gridIndex3Dto1D x y z R ∧ gridIndex3Dto1D x y z R < R ^ 3 := by
  have hR0 : (0:ℤ) ≤ R := by omega
  have hyR : y * R ≤ (R - 1) * R := mul_le_mul_of_nonneg_right hy1 hR0
  have hyR0 : 0 ≤ y * R := mul_nonneg hy0 hR0
  have hzR : z * R ≤ (R - 1) * R := mul_le_mul_of_nonneg_right hz1 hR0
  have hzRR : z * R * R ≤ (R - 1) * R * R := mul_le_mul_of_nonneg_right hzR hR0
  have hzRR0 : 0 ≤ z * R * R := mul_nonneg (mul_nonneg hz0 hR0) hR0
  have hident : (R - 1) + (R - 1) * R + (R - 1) * R * R = R ^ 3 - 1 := by ring
  unfold gridIndex3Dto1D
  constructor <;> linarith

theorem computeCell_bounds {R : ℤ} (hR : 1 ≤ R) (gridMin : Vec3 ℚ) (inv : ℚ) (p : Vec3 ℚ) :
    0 ≤ computeCell R gridMin inv p ∧ computeCell R gridMin inv p < R ^ 3 := by
  have hcl0 : ∀ t : ℤ, 0 ≤ max 0 (min t (R - 1)) := fun t => le_max_left _ _
  have hcl1 : ∀ t : ℤ, max 0 (min t (R - 1)) ≤ R - 1 :=
    fun t => max_le (by omega) (min_le_right _ _)
  unfold computeCell
  exact gridIndex3Dto1D_bounds hR (hcl0 _) (hcl1 _) (hcl0 _) (hcl1 _) (hcl0 _) (hcl1 _)

/-- **C7.** `kernComputeIndices` writes `arrayIndex[i] = i` and
`cellId[i] = flatten(clamp(trunc((pos[i] - gridMin) * inverseCellWidth)))`,
and every produced cell id lies in `[0, R^3)`. -/
theorem claimC7 (N : ℕ) (R : ℤ) (gridMin : Vec3 ℚ) (inv : ℚ) (pos : List (Vec3 ℚ))
    (i : ℕ) (hR : 1 ≤ R) (hi : i < N) :
    (kernComputeIndices N R gridMin inv pos).1.getD i 0 = (i : ℤ) ∧
    (kernComputeIndices N R gridMin inv pos).2.getD i 0 =
      computeCell R gridMin inv (pos.getD i 0) ∧
    0 ≤ computeCell R gridMin inv (pos.getD i 0) ∧
    computeCell R gridMin inv (pos.getD i 0) < R ^ 3 := by
  obtain ⟨h0, h1⟩ := computeCell_bounds hR gridMin inv (pos.getD i 0)
  unfold kernComputeIndices
  exact ⟨getD_map_range _ hi _, getD_map_range _ hi _, h0, h1⟩

/-- Witness for C7 at a concrete input. -/
theorem claimC7_witness :
    (1 ≤ (22:ℤ) ∧ 0 < 1) ∧
    ((kernComputeIndices 1 22 initGridMinimum (1/10) [⟨50, 0, 0⟩]).1.getD 0 0 = (0 : ℤ) ∧
     (kernComputeIndices 1 22 initGridMinimum (1/10) [⟨50, 0, 0⟩]).2.getD 0 0 =
       computeCell 22 initGridMinimum (1/10) (([⟨50, 0, 0⟩] : List (Vec3 ℚ)).getD 0 0) ∧
     0 ≤ computeCell 22 initGridMinimum (1/10) (([⟨50, 0, 0⟩] : List (Vec3 ℚ)).getD 0 0) ∧
     computeCell 22 initGridMinimum (1/10) (([⟨50, 0, 0⟩] : List (Vec3 ℚ)).getD 0 0) < 22 ^ 3) :=
  ⟨⟨by decide, by decide⟩, claimC7 1 22 initGridMinimum (1/10) [⟨50, 0, 0⟩] 0
    (by decide) (by decide)⟩

/-! ### Claim theorems: empty-cell and negative-token skips (C8, C10) -/

/-- **C8.** A cell whose range entry is the sentinel (`start == -1`,
`end == -1`, or `start > end`) contributes no slots: both neighbor queries
leave the accumulator unchanged and iterate no range entries, so the sentinel
is never used to index the token or particle arrays. -/
theorem claimC8 (iSelf : ℕ) (startF endF : ℤ → ℤ) (arr : List ℤ)
    (pos vel : List (Vec3 ℚ)) (gridIndex : ℤ)
    (h : startF gridIndex = -1 ∨ endF gridIndex = -1 ∨ endF gridIndex < startF gridIndex) :
    cellSlots startF endF gridIndex = [] ∧
    (∀ a, computeVelScattered iSelf startF endF arr pos vel gridIndex a = a) ∧
    (∀ a, computeVelCoherent iSelf startF endF pos vel gridIndex a = a) := by
  have hslots : cellSlots startF endF gridIndex = [] := by
    unfold cellSlots
    exact if_pos h
  refine ⟨hslots, fun a => ?_, fun a => ?_⟩
  · unfold computeVelScattered
    rw [hslots]
    rfl
  · unfold computeVelCoherent
    rw [hslots]
    rfl

/-- Witness for C8: the freshly reset table (`kernResetIntBuffer (-1)`) is all
sentinels. -/
theorem claimC8_witness :
    (kernResetIntBuffer (-1) 0 = -1 ∨ kernResetIntBuffer (-1) 0 = -1 ∨
      kernResetIntBuffer (-1) 0 < kernResetIntBuffer (-1) 0) ∧
    (cellSlots (kernResetIntBuffer (-1)) (kernResetIntBuffer (-1)) 0 = [] ∧
     (∀ a, computeVelScattered 0 (kernResetIntBuffer (-1)) (kernResetIntBuffer (-1)) [] [] [] 0 a = a) ∧
     (∀ a, computeVelCoherent 0 (kernResetIntBuffer (-1)) (kernResetIntBuffer (-1)) [] [] 0 a = a)) :=
  ⟨Or.inl rfl, claimC8 0 (kernResetIntBuffer (-1)) (kernResetIntBuffer (-1)) [] [] [] 0 (Or.inl rfl)⟩

/-- **C10.** A range entry holding a negative boid index is skipped exactly
like the self entry: the scattered loop body leaves the accumulator unchanged
and reads no position or velocity slot. -/
theorem claimC10 (iSelf : ℕ) (arr : List ℤ) (pos vel : List (Vec3 ℚ)) (i : ℤ)
    (h : arr.getD i.toNat 0 < 0) :
    (∀ a, scatterBody iSelf arr pos vel a i = a) ∧ scatterReads iSelf arr i = [] := by
  constructor
  · intro a
    unfold scatterBody
    exact if_pos (Or.inl h)
  · unfold scatterReads
    exact if_pos (Or.inl h)

/-- Witness for C10 at a concrete input. -/
theorem claimC10_witness :
    (([(-1 : ℤ)].getD ((0 : ℤ)).toNat 0 < 0) ∧
    ((∀ a, scatterBody 0 [(-1 : ℤ)] [] [] a 0 = a) ∧ scatterReads 0 [(-1 : ℤ)] 0 = [])) :=
  ⟨by decide, claimC10 0 [(-1 : ℤ)] [] [] 0 (by decide)⟩

/-! ### Claim theorems: data reorderer (C4) -/

/-- **C4.** `kernReorderData` moves data exactly: for every slot `k < N`,
`reordered[k] = original[arrayIndex[k]]` for both position and velocity. -/
theorem claimC4 (N : ℕ) (pos vel : List (Vec3 ℚ)) (indices : List ℤ) (k : ℕ)
    (h : k < N) :
    (kernReorderData N pos vel indices).1.getD k 0 =
      pos.getD (indices.getD k 0).toNat 0 ∧
    (kernReorderData N pos vel indices).2.getD k 0 =
      vel.getD (indices.getD k 0).toNat 0 := by
  unfold kernReorderData
  exact ⟨getD_map_range _ h _, getD_map_range _ h _⟩

/-- Witness for C4 at a concrete input (two boids swapped). -/
theorem claimC4_witness :
    (0 < 2) ∧
    ((kernReorderData 2 [⟨1, 2, 3⟩, ⟨4, 5, 6⟩] [⟨7, 8, 9⟩, ⟨10, 11, 12⟩] [1, 0]).1.getD 0 0 =
      ([⟨1, 2, 3⟩, ⟨4, 5, 6⟩] : List (Vec3 ℚ)).getD (([1, 0] : List ℤ).getD 0 0).toNat 0 ∧
     (kernReorderData 2 [⟨1, 2, 3⟩, ⟨4, 5, 6⟩] [⟨7, 8, 9⟩, ⟨10, 11, 12⟩] [1, 0]).2.getD 0 0 =
      ([⟨7, 8, 9⟩, ⟨10, 11, 12⟩] : List (Vec3 ℚ)).getD (([1, 0] : List ℤ).getD 0 0).toNat 0) :=
  ⟨by decide, claimC4 2 [⟨1, 2, 3⟩, ⟨4, 5, 6⟩] [⟨7, 8, 9⟩, ⟨10, 11, 12⟩] [1, 0] 0 (by decide)⟩

/-! ### The range table (C3 and supporting lemmas) -/

theorem intRange_mem {a b s : ℤ} : s ∈ intRange a b ↔ a ≤ s ∧ s ≤ b := by
  unfold intRange
  simp only [List.mem_map, List.mem_range]
  constructor
  · rintro ⟨t, ht, rfl⟩
    omega
  · intro ⟨h1, h2⟩
    exact ⟨(s - a).toNat, by omega, by omega⟩

theorem intRange_nodup (a b : ℤ) : (intRange a b).Nodup := by
  unfold intRange
  refine List.Nodup.map_on ?_ (List.nodup_range _)
  intro x hx y hy h
  omega

theorem identifyPartial_succ (S : List ℤ) (m : ℕ) :
    identifyPartial S (m + 1) = identifyStep S (identifyPartial S m) m := by
  unfold identifyPartial
  rw [List.range_succ, List.foldl_append]
  rfl

theorem identifyStep_fst (S : List ℤ) (se : (ℤ → ℤ) × (ℤ → ℤ)) (index : ℕ) :
    (identifyStep S se index).1 = if startCondition S index then
      (fun cell => if cell = S.getD index 0 then (index : ℤ) else se.1 cell) else se.1 := rfl

theorem identifyStep_snd (S : List ℤ) (se : (ℤ → ℤ) × (ℤ → ℤ)) (index : ℕ) :
    (identifyStep S se index).2 = if endCondition S index then
      (fun cell => if cell = S.getD index 0 then (index : ℤ) else se.2 cell) else se.2 := rfl

/-- After the first `m` parallel writes, `start[c]` is `-1` when no position
below `m` wrote to `c`, and otherwise holds some position that wrote to `c`. -/
theorem identifyPartial_start_spec (S : List ℤ) (c : ℤ) (m : ℕ) :
    ((identifyPartial S m).1 c = -1 ∧ ∀ k, k < m → ¬(S.getD k 0 = c ∧ startCondition S k)) ∨
    (∃ k, k < m ∧ S.getD k 0 = c ∧ startCondition S k ∧ (identifyPartial S m).1 c = (k : ℤ)) := by
  induction m with
  | zero => exact Or.inl ⟨rfl, fun k hk => absurd hk (Nat.not_lt_zero k)⟩
  | succ m ih =>
    rw [identifyPartial_succ, identifyStep_fst]
    by_cases hcond : startCondition S m
    · simp only [if_pos hcond]
      by_cases hc : c = S.getD m 0
      · exact Or.inr ⟨m, Nat.lt_succ_self m, hc.symm, hcond, by simp only [if_pos hc]⟩
      · rcases ih with ⟨hval, hnone⟩ | ⟨k, hk, hkey, hcondk, hval⟩
        · refine Or.inl ⟨by simp only [if_neg hc]; exact hval, fun k hk hbad => ?_⟩
          rcases Nat.lt_succ_iff_lt_or_eq.mp hk with h | rfl
          · exact hnone k h hbad
          · exact hc hbad.1.symm
        · exact Or.inr ⟨k, Nat.lt_succ_of_lt hk, hkey, hcondk,
            by simp only [if_neg hc]; exact hval⟩
    · simp only [if_neg hcond]
      rcases ih with ⟨hval, hnone⟩ | ⟨k, hk, hkey, hcondk, hval⟩
      · refine Or.inl ⟨hval, fun k hk hbad => ?_⟩
        rcases Nat.lt_succ_iff_lt_or_eq.mp hk with h | rfl
        · exact hnone k h hbad
        · exact hcond hbad.2
      · exact Or.inr ⟨k, Nat.lt_succ_of_lt hk, hkey, hcondk, hval⟩

/-- Mirror of `identifyPartial_start_spec` for the end table. -/
theorem identifyPartial_end_spec (S : List ℤ) (c : ℤ) (m : ℕ) :
    ((identifyPartial S m).2 c = -1 ∧ ∀ k, k < m → ¬(S.getD k 0 = c ∧ endCondition S k)) ∨
    (∃ k, k < m ∧ S.getD k 0 = c ∧ endCondition S k ∧ (identifyPartial S m).2 c = (k : ℤ)) := by
  induction m with
  | zero => exact Or.inl ⟨rfl, fun k hk => absurd hk (Nat.not_lt_zero k)⟩
  | succ m ih =>
    rw [identifyPartial_succ, identifyStep_snd]
    by_cases hcond : endCondition S m
    · simp only [if_pos hcond]
      by_cases hc : c = S.getD m 0
      · exact Or.inr ⟨m, Nat.lt_succ_self m, hc.symm, hcond, by simp only [if_pos hc]⟩
      · rcases ih with ⟨hval, hnone⟩ | ⟨k, hk, hkey, hcondk, hval⟩
        · refine Or.inl ⟨by simp only [if_neg hc]; exact hval, fun k hk hbad => ?_⟩
          rcases Nat.lt_succ_iff_lt_or_eq.mp hk with h | rfl
          · exact hnone k h hbad
          · exact hc hbad.1.symm
        · exact Or.inr ⟨k, Nat.lt_succ_of_lt hk, hkey, hcondk,
            by simp only [if_neg hc]; exact hval⟩
    · simp only [if_neg hcond]
      rcases ih with ⟨hval, hnone⟩ | ⟨k, hk, hkey, hcondk, hval⟩
      · refine Or.inl ⟨hval, fun k hk hbad => ?_⟩
        rcases Nat.lt_succ_iff_lt_or_eq.mp hk with h | rfl
        · exact hnone k h hbad
        · exact hcond hbad.2
      · exact Or.inr ⟨k, Nat.lt_succ_of_lt hk, hkey, hcondk, hval⟩

theorem sorted_getD_le (S : List ℤ) (hs : List.Sorted (· ≤ ·) S) {a b : ℕ}
    (hab : a ≤ b) (hb : b < S.length) : S.getD a 0 ≤ S.getD b 0 := by
  have ha : a < S.length := lt_of_le_of_lt hab hb
  rcases lt_or_eq_of_le hab with h | rfl
  · rw [List.getD_eq_getElem _ _ ha, List.getD_eq_getElem _ _ hb]
    exact List.pairwise_iff_getElem.mp hs a b ha hb h
  · exact le_refl _

/-- In a sorted array, positions between two occurrences of `c` also hold `c`. -/
theorem sorted_sandwich (S : List ℤ) (hs : List.Sorted (· ≤ ·) S) {a k b : ℕ} {c : ℤ}
    (hak : a ≤ k) (hkb : k ≤ b) (hb : b < S.length)
    (hca : S.getD a 0 = c) (hcb : S.getD b 0 = c) : S.getD k 0 = c := by
  have h1 := sorted_getD_le S hs hak (lt_of_le_of_lt hkb hb)
  have h2 := sorted_getD_le S hs hkb hb
  omega

/-- Below any occurrence of `c` there is a position satisfying the start-write
guard for `c` (the least occurrence). -/
theorem exists_start_writer (S : List ℤ) {k : ℕ} {c : ℤ}
    (hc : S.getD k 0 = c) : ∃ f, f ≤ k ∧ S.getD f 0 = c ∧ startCondition S f := by
  have hex : ∃ j, S.getD j 0 = c := ⟨k, hc⟩
  refine ⟨Nat.find hex, Nat.find_le hc, Nat.find_spec hex, ?_⟩
  by_cases h0 : Nat.find hex = 0
  · exact Or.inl h0
  · refine Or.inr ?_
    have hlt : Nat.find hex - 1 < Nat.find hex := by omega
    have hne := Nat.find_min hex hlt
    rw [Nat.find_spec hex]
    exact hne

/-- Above any occurrence of `c` there is a position (below `N`) satisfying the
end-write guard for `c` (the greatest occurrence). -/
theorem exists_end_writer_aux (S : List ℤ) (c : ℤ) :
    ∀ d k, k < S.length → S.length - 1 - k ≤ d → S.getD k 0 = c →
      ∃ l, k ≤ l ∧ l < S.length ∧ S.getD l 0 = c ∧ endCondition S l := by
  intro d
  induction d with
  | zero =>
    intro k hk hd hc
    exact ⟨k, le_refl k, hk, hc, Or.inl (by omega)⟩
  | succ d ih =>
    intro k hk hd hc
    by_cases hlast : k = S.length - 1
    · exact ⟨k, le_refl k, hk, hc, Or.inl hlast⟩
    · by_cases hnext : S.getD (k + 1) 0 = S.getD k 0
      · obtain ⟨l, hkl, hl, hlc, hlcond⟩ :=
          ih (k + 1) (by omega) (by omega) (by rw [hnext, hc])
        exact ⟨l, by omega, hl, hlc, hlcond⟩
      · exact ⟨k, le_refl k, hk, hc, Or.inr hnext⟩

theorem exists_end_writer (S : List ℤ) {k : ℕ} {c : ℤ} (hk : k < S.length)
    (hc : S.getD k 0 = c) :
    ∃ l, k ≤ l ∧ l < S.length ∧ S.getD l 0 = c ∧ endCondition S l :=
  exists_end_writer_aux S c (S.length - 1 - k) k hk (le_refl _) hc

/-- `start[c]` in the final table is the position of an actual start write for
any occurring key `c`. -/
theorem start_writer_final (S : List ℤ) {c : ℤ} (hc : c ∈ S) :
    ∃ f, f < S.length ∧ S.getD f 0 = c ∧ startCondition S f ∧
      (kernIdentifyCellStartEnd S).1 c = (f : ℤ) := by
  obtain ⟨k, hk, hkc⟩ := List.mem_iff_getElem.mp hc
  have hkd : S.getD k 0 = c := by rw [List.getD_eq_getElem _ _ hk]; exact hkc
  obtain ⟨f, hfk, hfc, hfcond⟩ := exists_start_writer S hkd
  rcases identifyPartial_start_spec S c S.length with ⟨_, hnone⟩ | ⟨g, hg, hgc, hgcond, hgval⟩
  · exact absurd ⟨hfc, hfcond⟩ (hnone f (lt_of_le_of_lt hfk hk))
  · exact ⟨g, hg, hgc, hgcond, hgval⟩

/-- `end[c]` in the final table is the position of an actual end write for any
occurring key `c`. -/
theorem end_writer_final (S : List ℤ) {c : ℤ} (hc : c ∈ S) :
    ∃ l, l < S.length ∧ S.getD l 0 = c ∧ endCondition S l ∧
      (kernIdentifyCellStartEnd S).2 c = (l : ℤ) := by
  obtain ⟨k, hk, hkc⟩ := List.mem_iff_getElem.mp hc
  have hkd : S.getD k 0 = c := by rw [List.getD_eq_getElem _ _ hk]; exact hkc
  obtain ⟨l, hkl, hl, hlc, hlcond⟩ := exists_end_writer S hk hkd
  rcases identifyPartial_end_spec S c S.length with ⟨_, hnone⟩ | ⟨g, hg, hgc, hgcond, hgval⟩
  · exact absurd ⟨hlc, hlcond⟩ (hnone l hl)
  · exact ⟨g, hg, hgc, hgcond, hgval⟩

/-- In a sorted array the final `start[c]` is at most any occurrence of `c`. -/
theorem start_le_occurrence (S : List ℤ) (hs : List.Sorted (· ≤ ·) S) {c : ℤ} {k : ℕ}
    (hk : k < S.length) (hc : S.getD k 0 = c) :
    0 ≤ (kernIdentifyCellStartEnd S).1 c ∧ (kernIdentifyCellStartEnd S).1 c ≤ (k : ℤ) := by
  have hmem : c ∈ S := by
    rw [← hc, List.getD_eq_getElem _ _ hk]
    exact List.getElem_mem hk
  obtain ⟨f, hf, hfc, hfcond, hfval⟩ := start_writer_final S hmem
  rw [hfval]
  refine ⟨by omega, ?_⟩
  by_contra hlt
  have hkf : k + 1 ≤ f := by omega
  have hf0 : f ≠ 0 := by omega
  have hprev : S.getD (f - 1) 0 = c :=
    sorted_sandwich S hs (a := k) (b := f) (by omega) (by omega) hf hc hfc
  rcases hfcond with h0 | hne
  · exact hf0 h0
  · exact hne (by rw [hprev, hfc])

/-- In a sorted array the final `end[c]` is at least any occurrence of `c`,
and below `N`. -/
theorem occurrence_le_end (S : List ℤ) (hs : List.Sorted (· ≤ ·) S) {c : ℤ} {k : ℕ}
    (hk : k < S.length) (hc : S.getD k 0 = c) :
    (k : ℤ) ≤ (kernIdentifyCellStartEnd S).2 c ∧
      (kernIdentifyCellStartEnd S).2 c < (S.length : ℤ) := by
  have hmem : c ∈ S := by
    rw [← hc, List.getD_eq_getElem _ _ hk]
    exact List.getElem_mem hk
  obtain ⟨l, hl, hlc, hlcond, hlval⟩ := end_writer_final S hmem
  rw [hlval]
  refine ⟨?_, by omega⟩
  by_contra hlt
  have hlk : l + 1 ≤ k := by omega
  have hlnot : l ≠ S.length - 1 := by omega
  have hnext : S.getD (l + 1) 0 = c :=
    sorted_sandwich S hs (a := l) (b := k) (by omega) (by omega) hk hlc hc
  rcases hlcond with h0 | hne
  · exact hlnot h0
  · exact hne (by rw [hnext, hlc])

/-- Keys that never occur keep the sentinel in both tables. -/
theorem table_sentinel (S : List ℤ) {c : ℤ} (hc : c ∉ S) :
    (kernIdentifyCellStartEnd S).1 c = -1 ∧ (kernIdentifyCellStartEnd S).2 c = -1 := by
  constructor
  · rcases identifyPartial_start_spec S c S.length with ⟨hval, _⟩ | ⟨k, hk, hkc, _, _⟩
    · exact hval
    · exact absurd (by rw [← hkc, List.getD_eq_getElem _ _ hk]; exact List.getElem_mem hk) hc
  · rcases identifyPartial_end_spec S c S.length with ⟨hval, _⟩ | ⟨k, hk, hkc, _, _⟩
    · exact hval
    · exact absurd (by rw [← hkc, List.getD_eq_getElem _ _ hk]; exact List.getElem_mem hk) hc

/-- Any slot inside the final `[start[c], end[c]]` range of an occurring key
holds key `c`. -/
theorem interval_key (S : List ℤ) (hs : List.Sorted (· ≤ ·) S) {c : ℤ} (hc : c ∈ S) {s : ℤ}
    (h1 : (kernIdentifyCellStartEnd S).1 c ≤ s) (h2 : s ≤ (kernIdentifyCellStartEnd S).2 c) :
    0 ≤ s ∧ s.toNat < S.length ∧ S.getD s.toNat 0 = c := by
  obtain ⟨f, hf, hfc, _, hfval⟩ := start_writer_final S hc
  obtain ⟨l, hl, hlc, _, hlval⟩ := end_writer_final S hc
  rw [hfval] at h1
  rw [hlval] at h2
  have h0 : 0 ≤ s := by omega
  have hsl : s.toNat ≤ l := by omega
  have hfs : f ≤ s.toNat := by omega
  exact ⟨h0, by omega, sorted_sandwich S hs hfs hsl hl hfc hlc⟩

/-- **C3.** For every non-decreasing cell-id array of length at least 1, after
resetting both tables to `-1` and running `kernIdentifyCellStartEnd` over all
sorted positions: every position `k` satisfies
`start[cellId[k]] ≤ k ≤ end[cellId[k]]`, the ranges of distinct occurring cells
are disjoint, and cells that occur nowhere keep the sentinel `-1` in both
tables. -/
theorem claimC3 (S : List ℤ) (hs : List.Sorted (· ≤ ·) S) (hn : 1 ≤ S.length) :
    RangeTableSpec S := by
  refine ⟨fun k hk => ?_, fun c d hcS hdS hne t ht => ?_, fun c hc => table_sentinel S hc⟩
  · exact ⟨(start_le_occurrence S hs hk rfl).2, (occurrence_le_end S hs hk rfl).1⟩
  · obtain ⟨h1, h2, h3, h4⟩ := ht
    obtain ⟨_, _, hc⟩ := interval_key S hs hcS h1 h2
    obtain ⟨_, _, hd⟩ := interval_key S hs hdS h3 h4
    exact hne (by rw [← hc, ← hd])

/-- Witness for C3 at a concrete sorted array. -/
theorem claimC3_witness :
    (List.Sorted (· ≤ ·) [(3 : ℤ), 3, 5] ∧ 1 ≤ ([(3 : ℤ), 3, 5] : List ℤ).length) ∧
    RangeTableSpec [(3 : ℤ), 3, 5] :=
  ⟨⟨by decide, by decide⟩, claimC3 [(3 : ℤ), 3, 5] (by decide) (by decide)⟩

/-- Membership in the slot list a neighbor query iterates for cell `c` is
exactly "valid sorted position holding key `c`" (for sorted keys). -/
theorem cellSlots_mem (S : List ℤ) (hs : List.Sorted (· ≤ ·) S) (c : ℤ) (s : ℤ) :
    s ∈ cellSlots (kernIdentifyCellStartEnd S).1 (kernIdentifyCellStartEnd S).2 c ↔
      0 ≤ s ∧ s.toNat < S.length ∧ S.getD s.toNat 0 = c := by
  unfold cellSlots
  by_cases hc : c ∈ S
  · obtain ⟨f, hf, hfc, _, hfval⟩ := start_writer_final S hc
    have hfend := (occurrence_le_end S hs hf hfc).1
    have hguard : ¬((kernIdentifyCellStartEnd S).1 c = -1 ∨
        (kernIdentifyCellStartEnd S).2 c = -1 ∨
        (kernIdentifyCellStartEnd S).2 c < (kernIdentifyCellStartEnd S).1 c) := by
      rw [hfval]
      push_neg
      refine ⟨by omega, by omega, by omega⟩
    rw [if_neg hguard]
    simp only [intRange_mem]
    constructor
    · intro ⟨h1, h2⟩
      exact interval_key S hs hc h1 h2
    · intro ⟨h0, hlen, hkey⟩
      have ha := (start_le_occurrence S hs hlen hkey).2
      have hb := (occurrence_le_end S hs hlen hkey).1
      exact ⟨by omega, by omega⟩
  · obtain ⟨h1, h2⟩ := table_sentinel S hc
    rw [if_pos (Or.inl h1)]
    simp only [List.not_mem_nil, false_iff]
    intro ⟨h0, hlen, hkey⟩
    exact hc (by rw [← hkey, List.getD_eq_getElem _ _ hlen]; exact List.getElem_mem hlen)

/-! ### Claim theorems: speed clamp (C5) -/

theorem norm2R_nonneg (v : Vec3 ℝ) : 0 ≤ norm2R v := by
  unfold norm2R
  positivity

theorem lengthR_nonneg (v : Vec3 ℝ) : 0 ≤ lengthR v := Real.sqrt_nonneg _

theorem lengthR_smul (t : ℝ) (v : Vec3 ℝ) : lengthR (t • v) = |t| * lengthR v := by
  unfold lengthR
  have h : norm2R (t • v) = t ^ 2 * norm2R v := by
    unfold norm2R
    simp
    ring
  rw [h, Real.sqrt_mul (sq_nonneg t), Real.sqrt_sq_eq_abs]

theorem speedClampSpec_holds : SpeedClampSpec := by
  intro v
  have hm : ((maxSpeed : ℚ) : ℝ) = 1 := by norm_num [maxSpeed]
  have hs0 : 0 ≤ lengthR v := lengthR_nonneg v
  by_cases h : ((maxSpeed : ℚ) : ℝ) < lengthR v
  · have hspos : 0 < lengthR v := by rw [hm] at h; linarith
    have hceq : clampSpeed v = (((maxSpeed : ℚ) : ℝ) / lengthR v) • v := by
      unfold clampSpeed
      rw [if_pos h]
    have htpos : 0 < ((maxSpeed : ℚ) : ℝ) / lengthR v := by
      rw [hm]
      positivity
    have hlen : lengthR (clampSpeed v) = ((maxSpeed : ℚ) : ℝ) := by
      rw [hceq, lengthR_smul, abs_of_pos htpos]
      field_simp
    exact ⟨le_of_eq hlen, fun hle => absurd h (not_lt.mpr hle),
      fun _ => ⟨hlen, _, htpos, hceq⟩⟩
  · have hid : clampSpeed v = v := by
      unfold clampSpeed
      rw [if_neg h]
    exact ⟨by rw [hid]; exact not_lt.mp h, fun _ => hid, fun hlt => absurd hlt h⟩

/-- **C5.** The brute-force velocity update writes
`clamp(vel1[i] + computeVelocityChange(...))` to slot `i`, where the clamp
rescales to speed exactly `maxSpeed` (direction preserved) iff the summed
velocity exceeds `maxSpeed`, leaves a result at or below the cap unchanged,
and therefore always outputs a speed of at most `maxSpeed`. -/
theorem claimC5 (N : ℕ) (pos vel1 : List (Vec3 ℚ)) (i : ℕ) (hi : i < N) :
    (kernUpdateVelocityBruteForce N pos vel1).getD i 0 =
      clampSpeed (toR (vel1.getD i 0 + computeVelocityChange N i pos vel1)) ∧
    SpeedClampSpec := by
  refine ⟨?_, speedClampSpec_holds⟩
  unfold kernUpdateVelocityBruteForce
  rw [getD_map_range _ hi]
  rfl

/-- Witness for C5 at a concrete input. -/
theorem claimC5_witness :
    (0 < 1) ∧
    ((kernUpdateVelocityBruteForce 1 [0] [0]).getD 0 0 =
      clampSpeed (toR (([0] : List (Vec3 ℚ)).getD 0 0 + computeVelocityChange 1 0 [0] [0])) ∧
     SpeedClampSpec) :=
  ⟨by decide, claimC5 1 [0] [0] 0 (by decide)⟩

/-! ### Claim theorems: initialization (C9) -/

/-- **C9, counterexample.** The claim says an invalid configuration (`N ≤ 0`)
"never proceeds to buffer allocation".  On the code, `initSimulation 0` issues
its buffer allocations unconditionally: the allocation list is nonempty (its
first request is `dev_pos` with element count 0). -/
theorem claimC9_counterexample :
    (initSimulation 0).allocs ≠ [] ∧
    (initSimulation 0).allocs.getD 0 ("", 0) = ("dev_pos", 0) := by
  constructor
  · simp [initSimulation]
  · rfl

/-- **C9, amended.** `Boids::initSimulation` performs no validation at all:
for every agent count `N` (including `N ≤ 0`) it unconditionally issues the
same nine buffer allocations, sized from `N` and the grid cell count, and
computes the grid parameters; the grid cell width is the fixed constant
`2 * max(rule1Distance, rule2Distance, rule3Distance) = 10`, which is positive,
so an invalid cell width cannot arise from this initializer. -/
theorem claimC9 (N : ℤ) :
    (initSimulation N).allocs =
      [("dev_pos", N), ("dev_vel1", N), ("dev_vel2", N),
       ("dev_particleArrayIndices", N), ("dev_particleGridIndices", N),
       ("dev_gridCellStartIndices", initGridCellCount),
       ("dev_gridCellEndIndices", initGridCellCount),
       ("dev_pos_temp", N), ("dev_vel1_temp", N)] ∧
    (initSimulation N).gridCellWidth = 10 ∧
    0 < (initSimulation N).gridCellWidth := by
  refine ⟨rfl, ?_, ?_⟩ <;>
    norm_num [initSimulation, initGridCellWidth, rule1Distance, rule2Distance, rule3Distance]

/-! ### Accumulation as commutative sums -/

theorem ruleStep_eq_add (pSelf pj vj : Vec3 ℚ) (a : Accum) :
    ruleStep pSelf pj vj a = a + contribA pSelf pj vj := by
  show _ = addAccum a (contribA pSelf pj vj)
  unfold contribA ruleStep accum0 addAccum
  dsimp only
  split_ifs <;> ext <;> simp <;> ring

theorem scatterBody_eq_add (iSelf : ℕ) (arr : List ℤ) (pos vel : List (Vec3 ℚ))
    (a : Accum) (i : ℤ) :
    scatterBody iSelf arr pos vel a i = a + scatterDelta iSelf arr pos vel i := by
  unfold scatterBody scatterDelta
  dsimp only
  split_ifs with h
  · exact (add_zero a).symm
  · exact ruleStep_eq_add _ _ _ _

theorem coherentBody_eq_add (iSelf : ℕ) (pos vel : List (Vec3 ℚ)) (a : Accum) (i : ℤ) :
    coherentBody iSelf pos vel a i = a + coherentDelta iSelf pos vel i := by
  unfold coherentBody coherentDelta
  split_ifs with h
  · exact (add_zero a).symm
  · exact ruleStep_eq_add _ _ _ _

theorem bruteBody_eq_add (iSelf : ℕ) (pos vel : List (Vec3 ℚ)) (a : Accum) (i : ℕ) :
    (if i = iSelf then a
      else ruleStep (pos.getD iSelf 0) (pos.getD i 0) (vel.getD i 0) a) =
    a + bruteDelta iSelf pos vel i := by
  unfold bruteDelta
  split_ifs with h
  · exact (add_zero a).symm
  · exact ruleStep_eq_add _ _ _ _

theorem foldl_eq_sum {β : Type} (g : Accum → β → Accum) (f : β → Accum)
    (hbody : ∀ a x, g a x = a + f x) :
    ∀ (l : List β) (a : Accum), l.foldl g a = a + (l.map f).sum := by
  intro l
  induction l with
  | nil =>
    intro a
    simp
  | cons x xs ih =>
    intro a
    rw [List.foldl_cons, ih, hbody, List.map_cons, List.sum_cons, add_assoc]

theorem foldl_cells_eq_foldl_flatMap {β γ : Type} (g : Accum → γ → Accum) (h : β → List γ) :
    ∀ (cells : List β) (a : Accum),
      cells.foldl (fun acc cid => (h cid).foldl g acc) a = (cells.flatMap h).foldl g a := by
  intro cells
  induction cells with
  | nil => intro a; rfl
  | cons cid cs ih =>
    intro a
    rw [List.foldl_cons, List.flatMap_cons, List.foldl_append, ih]

/-- Outside the largest rule radius every rule test fails, so a candidate
contributes nothing. -/
theorem contribA_eq_zero {pSelf pj : Vec3 ℚ} (vj : Vec3 ℚ)
    (h : ¬ dist2 pSelf pj < 25) : contribA pSelf pj vj = 0 := by
  have h1 : ¬ dist2 pSelf pj < rule1Distance ^ 2 := by
    intro hc
    exact h (by norm_num [rule1Distance] at hc; linarith)
  have h2 : ¬ dist2 pSelf pj < rule2Distance ^ 2 := by
    intro hc
    exact h (by norm_num [rule2Distance] at hc; linarith)
  have h3 : ¬ dist2 pSelf pj < rule3Distance ^ 2 := by
    intro hc
    exact h (by norm_num [rule3Distance] at hc; linarith)
  unfold contribA ruleStep
  simp only [if_neg h1, if_neg h2, if_neg h3]
  rfl

/-- Dropping elements with zero contribution does not change the sum. -/
theorem sum_map_filter_eq {β : Type} (f : β → Accum) (p : β → Bool) :
    ∀ l : List β, (∀ x ∈ l, p x = false → f x = 0) →
      (l.map f).sum = ((l.filter p).map f).sum := by
  intro l
  induction l with
  | nil => intro _; rfl
  | cons x xs ih =>
    intro h0
    have htail := fun y hy => h0 y (List.mem_cons_of_mem x hy)
    rw [List.map_cons, List.sum_cons, List.filter_cons]
    cases hp : p x
    · simp only [Bool.false_eq_true, if_false]
      rw [h0 x (List.mem_cons_self x xs) hp, zero_add, ih htail]
    · simp only [if_true]
      rw [List.map_cons, List.sum_cons, ih htail]

/-! ### The flattened cell id is injective on in-grid coordinates -/

theorem gridIndex3Dto1D_inj {R x1 y1 z1 x2 y2 z2 : ℤ}
    (hx1 : 0 ≤ x1) (hx1R : x1 < R) (hy1 : 0 ≤ y1) (hy1R : y1 < R)
    (hz1 : 0 ≤ z1) (hz1R : z1 < R) (hx2 : 0 ≤ x2) (hx2R : x2 < R)
    (hy2 : 0 ≤ y2) (hy2R : y2 < R) (hz2 : 0 ≤ z2) (hz2R : z2 < R)
    (h : gridIndex3Dto1D x1 y1 z1 R = gridIndex3Dto1D x2 y2 z2 R) :
    x1 = x2 ∧ y1 = y2 ∧ z1 = z2 := by
  unfold gridIndex3Dto1D at h
  have hR : 0 < R := by omega
  have hcancel : ∀ a b t : ℤ, 0 ≤ a → a < R → 0 ≤ b → b < R → a - b = R * t → a = b := by
    intro a b t ha haR hb hbR hab
    rcases lt_trichotomy t 0 with htn | htz | htp
    · have hle : R * t ≤ -R := by nlinarith
      linarith
    · rw [htz, mul_zero] at hab
      omega
    · have hge : R ≤ R * t := by nlinarith
      linarith
  have hx : x1 = x2 := by
    have hkey : x1 - x2 = R * ((y2 - y1) + R * (z2 - z1)) := by linear_combination h
    exact hcancel x1 x2 _ hx1 hx1R hx2 hx2R hkey
  have hyz : y1 + z1 * R = y2 + z2 * R := by
    have h2 : R * (y1 + z1 * R) = R * (y2 + z2 * R) := by linear_combination h - hx
    exact mul_left_cancel₀ (by omega : R ≠ 0) h2
  have hy : y1 = y2 := by
    have hkey : y1 - y2 = R * (z2 - z1) := by linear_combination hyz
    exact hcancel y1 y2 _ hy1 hy1R hy2 hy2R hkey
  refine ⟨hx, hy, ?_⟩
  have hz' : z1 * R = z2 * R := by linear_combination hyz - hy
  exact mul_right_cancel₀ (by omega : R ≠ 0) hz'

/-! ### The neighbor-cell scans -/

/-- Destructure one entry of the bounds-checked flatten. -/
theorem scan_entry_some {R a b c cid : ℤ}
    (h : (if a < 0 ∨ R ≤ a ∨ b < 0 ∨ R ≤ b ∨ c < 0 ∨ R ≤ c then none
          else some (gridIndex3Dto1D a b c R)) = some cid) :
    0 ≤ a ∧ a < R ∧ 0 ≤ b ∧ b < R ∧ 0 ≤ c ∧ c < R ∧ cid = gridIndex3Dto1D a b c R := by
  by_cases hbad : a < 0 ∨ R ≤ a ∨ b < 0 ∨ R ≤ b ∨ c < 0 ∨ R ≤ c
  · rw [if_pos hbad] at h
    cases h
  · rw [if_neg hbad] at h
    push_neg at hbad
    obtain ⟨h1, h2, h3, h4, h5, h6⟩ := hbad
    exact ⟨h1, h2, h3, h4, h5, h6, (Option.some_inj.mp h).symm⟩

theorem mem_scanCells {R x y z : ℤ} {ox oy oz : List ℤ} {cid : ℤ} :
    cid ∈ scanCells R x y z ox oy oz ↔
      ∃ i ∈ ox, ∃ j ∈ oy, ∃ k ∈ oz,
        (0 ≤ x + i ∧ x + i < R ∧ 0 ≤ y + j ∧ y + j < R ∧ 0 ≤ z + k ∧ z + k < R) ∧
        cid = gridIndex3Dto1D (x + i) (y + j) (z + k) R := by
  unfold scanCells
  simp only [List.mem_flatMap, List.mem_filterMap, Option.mem_def]
  constructor
  · rintro ⟨i, hi, j, hj, k, hk, heq⟩
    obtain ⟨h1, h2, h3, h4, h5, h6, hcid⟩ := scan_entry_some heq
    exact ⟨i, hi, j, hj, k, hk, ⟨h1, h2, h3, h4, h5, h6⟩, hcid⟩
  · rintro ⟨i, hi, j, hj, k, hk, ⟨h1, h2, h3, h4, h5, h6⟩, rfl⟩
    refine ⟨i, hi, j, hj, k, hk, ?_⟩
    rw [if_neg (by push_neg; exact ⟨h1, h2, h3, h4, h5, h6⟩)]

theorem scanCells_nodup {R x y z : ℤ} {ox oy oz : List ℤ}
    (hox : ox.Nodup) (hoy : oy.Nodup) (hoz : oz.Nodup) :
    (scanCells R x y z ox oy oz).Nodup := by
  unfold scanCells
  rw [List.nodup_flatMap]
  refine ⟨fun i hi => ?_, ?_⟩
  · rw [List.nodup_flatMap]
    refine ⟨fun j hj => ?_, ?_⟩
    · refine List.Nodup.filterMap ?_ hoz
      intro k1 k2 cid hb1 hb2
      obtain ⟨a1, a2, a3, a4, a5, a6, e1⟩ := scan_entry_some hb1
      obtain ⟨b1, b2, b3, b4, b5, b6, e2⟩ := scan_entry_some hb2
      have := gridIndex3Dto1D_inj a1 a2 a3 a4 a5 a6 b1 b2 b3 b4 b5 b6
        (by rw [← e1, ← e2])
      omega
    · refine List.Pairwise.imp ?_ hoy
      intro j1 j2 hne cid hcid1 hcid2
      obtain ⟨k1, hk1, hb1⟩ := List.mem_filterMap.mp hcid1
      obtain ⟨k2, hk2, hb2⟩ := List.mem_filterMap.mp hcid2
      obtain ⟨a1, a2, a3, a4, a5, a6, e1⟩ := scan_entry_some hb1
      obtain ⟨b1, b2, b3, b4, b5, b6, e2⟩ := scan_entry_some hb2
      have := gridIndex3Dto1D_inj a1 a2 a3 a4 a5 a6 b1 b2 b3 b4 b5 b6
        (by rw [← e1, ← e2])
      omega
  · refine List.Pairwise.imp ?_ hox
    intro i1 i2 hne cid hcid1 hcid2
    obtain ⟨j1, hj1, hcidj1⟩ := List.mem_flatMap.mp hcid1
    obtain ⟨j2, hj2, hcidj2⟩ := List.mem_flatMap.mp hcid2
    obtain ⟨k1, hk1, hb1⟩ := List.mem_filterMap.mp hcidj1
    obtain ⟨k2, hk2, hb2⟩ := List.mem_filterMap.mp hcidj2
    obtain ⟨a1, a2, a3, a4, a5, a6, e1⟩ := scan_entry_some hb1
    obtain ⟨b1, b2, b3, b4, b5, b6, e2⟩ := scan_entry_some hb2
    have := gridIndex3Dto1D_inj a1 a2 a3 a4 a5 a6 b1 b2 b3 b4 b5 b6
      (by rw [← e1, ← e2])
    omega

theorem biasedOffsets_nodup (frac : ℚ) : (biasedOffsets frac).Nodup := by
  unfold biasedOffsets
  exact intRange_nodup _ _

/-! ### The sorted (cell id, boid index) pairs -/

theorem sortPairs_perm (keys vals : List ℤ) : (sortPairs keys vals).Perm (keys.zip vals) :=
  List.mergeSort_perm _ _

theorem pipelineSorted_length (N : ℕ) (R : ℤ) (gmin : Vec3 ℚ) (inv : ℚ)
    (pos : List (Vec3 ℚ)) : (pipelineSorted N R gmin inv pos).length = N := by
  unfold pipelineSorted pipelineCellIds kernComputeIndices
  rw [(sortPairs_perm _ _).length_eq]
  simp

theorem sortedKeys_length (N : ℕ) (R : ℤ) (gmin : Vec3 ℚ) (inv : ℚ)
    (pos : List (Vec3 ℚ)) : (sortedKeys N R gmin inv pos).length = N := by
  unfold sortedKeys
  rw [List.length_map, pipelineSorted_length]

theorem sortedVals_length (N : ℕ) (R : ℤ) (gmin : Vec3 ℚ) (inv : ℚ)
    (pos : List (Vec3 ℚ)) : (sortedVals N R gmin inv pos).length = N := by
  unfold sortedVals
  rw [List.length_map, pipelineSorted_length]

theorem pipelineSorted_mem (N : ℕ) (R : ℤ) (gmin : Vec3 ℚ) (inv : ℚ)
    (pos : List (Vec3 ℚ)) {p : ℤ × ℤ} (hp : p ∈ pipelineSorted N R gmin inv pos) :
    ∃ j, j < N ∧ p = (cellOf R gmin inv pos j, (j : ℤ)) := by
  unfold pipelineSorted at hp
  have hz := (sortPairs_perm _ _).mem_iff.mp hp
  obtain ⟨s, hs, hval⟩ := List.mem_iff_getElem.mp hz
  have hsN : s < N := by
    simpa [pipelineCellIds, kernComputeIndices] using hs
  refine ⟨s, hsN, ?_⟩
  rw [← hval, List.getElem_zip]
  unfold pipelineCellIds kernComputeIndices cellOf
  congr 1 <;> simp [hsN]

/-- The sorted key array is non-decreasing. -/
theorem sortedKeys_sorted (N : ℕ) (R : ℤ) (gmin : Vec3 ℚ) (inv : ℚ)
    (pos : List (Vec3 ℚ)) : List.Sorted (· ≤ ·) (sortedKeys N R gmin inv pos) := by
  unfold sortedKeys pipelineSorted sortPairs
  refine List.Pairwise.map Prod.fst (fun a b h => of_decide_eq_true h) ?_
  exact List.sorted_mergeSort
    (fun a b d hab hbd => by
      simp only [decide_eq_true_eq] at hab hbd ⊢
      exact le_trans hab hbd)
    (fun a b => by
      simp only [Bool.or_eq_true, decide_eq_true_eq]
      exact le_total a.1 b.1)
    (_)

/-- Slot `s` of the sorted pairs holds some boid `j < N` together with its cell
id. -/
theorem pipeline_slot (N : ℕ) (R : ℤ) (gmin : Vec3 ℚ) (inv : ℚ)
    (pos : List (Vec3 ℚ)) {s : ℕ} (hs : s < N) :
    ∃ j, j < N ∧ (sortedVals N R gmin inv pos).getD s 0 = (j : ℤ) ∧
      (sortedKeys N R gmin inv pos).getD s 0 = cellOf R gmin inv pos j := by
  have hlen : s < (pipelineSorted N R gmin inv pos).length := by
    rw [pipelineSorted_length]
    exact hs
  obtain ⟨j, hj, hval⟩ := pipelineSorted_mem N R gmin inv pos
    (List.getElem_mem hlen)
  refine ⟨j, hj, ?_, ?_⟩
  · unfold sortedVals
    rw [List.getD_eq_getElem _ _ (by rw [List.length_map]; exact hlen),
      List.getElem_map, hval]
  · unfold sortedKeys
    rw [List.getD_eq_getElem _ _ (by rw [List.length_map]; exact hlen),
      List.getElem_map, hval]

theorem sortedVals_perm (N : ℕ) (R : ℤ) (gmin : Vec3 ℚ) (inv : ℚ)
    (pos : List (Vec3 ℚ)) :
    (sortedVals N R gmin inv pos).Perm ((List.range N).map Int.ofNat) := by
  unfold sortedVals pipelineSorted
  have hperm := (sortPairs_perm (pipelineCellIds N R gmin inv pos)
    (kernComputeIndices N R gmin inv pos).1).map Prod.snd
  refine hperm.trans ?_
  rw [List.map_snd_zip]
  · rfl
  · simp [pipelineCellIds, kernComputeIndices]

theorem sortedVals_nodup (N : ℕ) (R : ℤ) (gmin : Vec3 ℚ) (inv : ℚ)
    (pos : List (Vec3 ℚ)) : (sortedVals N R gmin inv pos).Nodup := by
  have hnd : ((List.range N).map Int.ofNat).Nodup :=
    List.Nodup.map_on (fun a _ b _ h => Int.ofNat.inj h) (List.nodup_range N)
  exact hnd.perm (sortedVals_perm N R gmin inv pos).symm

theorem sortedVals_getD_inj (N : ℕ) (R : ℤ) (gmin : Vec3 ℚ) (inv : ℚ)
    (pos : List (Vec3 ℚ)) {s t : ℕ} (hs : s < N) (ht : t < N)
    (h : (sortedVals N R gmin inv pos).getD s 0 = (sortedVals N R gmin inv pos).getD t 0) :
    s = t := by
  have hls : s < (sortedVals N R gmin inv pos).length := by rw [sortedVals_length]; exact hs
  have hlt : t < (sortedVals N R gmin inv pos).length := by rw [sortedVals_length]; exact ht
  rw [List.getD_eq_getElem _ _ hls, List.getD_eq_getElem _ _ hlt] at h
  exact ((sortedVals_nodup N R gmin inv pos).getElem_inj_iff).mp h

theorem sortedVals_surj (N : ℕ) (R : ℤ) (gmin : Vec3 ℚ) (inv : ℚ)
    (pos : List (Vec3 ℚ)) {j : ℕ} (hj : j < N) :
    ∃ s, s < N ∧ (sortedVals N R gmin inv pos).getD s 0 = (j : ℤ) := by
  have hmem : (j : ℤ) ∈ sortedVals N R gmin inv pos := by
    rw [(sortedVals_perm N R gmin inv pos).mem_iff]
    exact List.mem_map.mpr ⟨j, List.mem_range.mpr hj, rfl⟩
  obtain ⟨s, hs, hval⟩ := List.mem_iff_getElem.mp hmem
  refine ⟨s, by rwa [sortedVals_length] at hs, ?_⟩
  rw [List.getD_eq_getElem _ _ hs, hval]

/-! ### Geometry of the biased neighbor-cell scan -/

theorem truncQ_eq_floor {q : ℚ} (h : 0 ≤ q) : truncQ q = ⌊q⌋ := if_pos h

theorem coord_floor_bounds {R : ℤ} {w rel : ℚ} (hw : 0 < w) (h0 : 0 ≤ rel)
    (h1 : rel < R * w) : 0 ≤ ⌊rel * (1 / w)⌋ ∧ ⌊rel * (1 / w)⌋ < R := by
  constructor
  · exact Int.floor_nonneg.mpr (by positivity)
  · rw [Int.floor_lt]
    have heq : rel * (1 / w) = rel / w := by ring
    rw [heq, div_lt_iff₀ hw]
    linarith

/-- For an in-grid position, the indexer's truncate-and-clamp coincides with
the query kernels' `floorf`, and the cell id is the flattened floor triple. -/
theorem computeCell_eq_floor {R : ℤ} {gmin : Vec3 ℚ} {w : ℚ} {q : Vec3 ℚ}
    (hw : 0 < w) (hq : inGrid R gmin w q) :
    computeCell R gmin (1 / w) q =
      gridIndex3Dto1D ⌊(q.x - gmin.x) * (1 / w)⌋ ⌊(q.y - gmin.y) * (1 / w)⌋
        ⌊(q.z - gmin.z) * (1 / w)⌋ R := by
  obtain ⟨hx0, hx1, hy0, hy1, hz0, hz1⟩ := hq
  obtain ⟨hfx0, hfx1⟩ := coord_floor_bounds hw hx0 hx1
  obtain ⟨hfy0, hfy1⟩ := coord_floor_bounds hw hy0 hy1
  obtain ⟨hfz0, hfz1⟩ := coord_floor_bounds hw hz0 hz1
  unfold computeCell
  simp only [Vec3.sub_x, Vec3.sub_y, Vec3.sub_z]
  rw [truncQ_eq_floor (by positivity), truncQ_eq_floor (by positivity),
    truncQ_eq_floor (by positivity)]
  congr 1 <;> omega

theorem floor_mem_biasedOffsets {u v : ℚ} (h : |u - v| < 1 / 2) :
    ⌊v⌋ - ⌊u⌋ ∈ biasedOffsets (u - (⌊u⌋ : ℚ)) := by
  obtain ⟨ha, hb⟩ := abs_lt.mp h
  have hu1 : (⌊u⌋ : ℚ) ≤ u := Int.floor_le u
  have hu2 : u < ⌊u⌋ + 1 := Int.lt_floor_add_one u
  unfold biasedOffsets
  rw [intRange_mem]
  constructor
  · split_ifs with hf
    · have hle : (⌊u⌋ - 1 : ℤ) ≤ ⌊v⌋ := Int.le_floor.mpr (by push_cast; linarith)
      omega
    · push_neg at hf
      have hle : (⌊u⌋ : ℤ) ≤ ⌊v⌋ := Int.le_floor.mpr (by linarith)
      omega
  · split_ifs with hf
    · have hlt : ⌊v⌋ < ⌊u⌋ + 2 := Int.floor_lt.mpr (by push_cast; linarith)
      omega
    · push_neg at hf
      have hlt : ⌊v⌋ < ⌊u⌋ + 1 := Int.floor_lt.mpr (by push_cast; linarith)
      omega

theorem floor_mem_range27 {u v : ℚ} (h : |u - v| < 1 / 2) :
    ⌊v⌋ - ⌊u⌋ ∈ intRange (-1) 1 := by
  obtain ⟨ha, hb⟩ := abs_lt.mp h
  have hu1 : (⌊u⌋ : ℚ) ≤ u := Int.floor_le u
  have hu2 : u < ⌊u⌋ + 1 := Int.lt_floor_add_one u
  rw [intRange_mem]
  have hle : (⌊u⌋ - 1 : ℤ) ≤ ⌊v⌋ := Int.le_floor.mpr (by push_cast; linarith)
  have hlt : ⌊v⌋ < ⌊u⌋ + 2 := Int.floor_lt.mpr (by push_cast; linarith)
  omega

theorem dist2_axis_lt {p q : Vec3 ℚ} (hd : dist2 p q < 25) :
    |p.x - q.x| < 5 ∧ |p.y - q.y| < 5 ∧ |p.z - q.z| < 5 := by
  unfold dist2 at hd
  refine ⟨?_, ?_, ?_⟩ <;>
    · rw [abs_lt]
      constructor <;>
        nlinarith [sq_nonneg (p.x - q.x), sq_nonneg (p.y - q.y), sq_nonneg (p.z - q.z)]

theorem axis_u_lt {w a b : ℚ} (hw : 0 < w) (h10 : 10 ≤ w) (h : |a - b| < 5) :
    |a * (1 / w) - b * (1 / w)| < 1 / 2 := by
  have heq : a * (1 / w) - b * (1 / w) = (a - b) / w := by ring
  rw [heq, abs_div, abs_of_pos hw, div_lt_iff₀ hw]
  linarith

/-- **Coverage of the biased scan.**  With cell width at least `2 * 5` and both
positions in the grid, the cell of any neighbor strictly within the largest
rule radius is among the biased scan's visited cells. -/
theorem visited_covers {R : ℤ} {gmin : Vec3 ℚ} {w : ℚ} {p q : Vec3 ℚ}
    (hw : 0 < w) (h10 : 10 ≤ w) (hp : inGrid R gmin w p) (hq : inGrid R gmin w q)
    (hd : dist2 p q < 25) :
    computeCell R gmin (1 / w) q ∈ visitedCellIds R gmin (1 / w) p := by
  obtain ⟨hdx, hdy, hdz⟩ := dist2_axis_lt hd
  have hdx2 : |p.x - gmin.x - (q.x - gmin.x)| < 5 := by
    rw [(by ring : p.x - gmin.x - (q.x - gmin.x) = p.x - q.x)]
    exact hdx
  have hdy2 : |p.y - gmin.y - (q.y - gmin.y)| < 5 := by
    rw [(by ring : p.y - gmin.y - (q.y - gmin.y) = p.y - q.y)]
    exact hdy
  have hdz2 : |p.z - gmin.z - (q.z - gmin.z)| < 5 := by
    rw [(by ring : p.z - gmin.z - (q.z - gmin.z) = p.z - q.z)]
    exact hdz
  obtain ⟨hqx0, hqx1, hqy0, hqy1, hqz0, hqz1⟩ := hq
  obtain ⟨hfx0, hfx1⟩ := coord_floor_bounds hw hqx0 hqx1
  obtain ⟨hfy0, hfy1⟩ := coord_floor_bounds hw hqy0 hqy1
  obtain ⟨hfz0, hfz1⟩ := coord_floor_bounds hw hqz0 hqz1
  rw [computeCell_eq_floor hw ⟨hqx0, hqx1, hqy0, hqy1, hqz0, hqz1⟩]
  unfold visitedCellIds
  simp only [Vec3.sub_x, Vec3.sub_y, Vec3.sub_z]
  rw [mem_scanCells]
  refine ⟨⌊(q.x - gmin.x) * (1 / w)⌋ - ⌊(p.x - gmin.x) * (1 / w)⌋,
    floor_mem_biasedOffsets (axis_u_lt hw h10 hdx2),
    ⌊(q.y - gmin.y) * (1 / w)⌋ - ⌊(p.y - gmin.y) * (1 / w)⌋,
    floor_mem_biasedOffsets (axis_u_lt hw h10 hdy2),
    ⌊(q.z - gmin.z) * (1 / w)⌋ - ⌊(p.z - gmin.z) * (1 / w)⌋,
    floor_mem_biasedOffsets (axis_u_lt hw h10 hdz2),
    ⟨by omega, by omega, by omega, by omega, by omega, by omega⟩, ?_⟩
  congr 1 <;> omega

/-- Coverage of the full 27-cell scan (same hypotheses). -/
theorem visited27_covers {R : ℤ} {gmin : Vec3 ℚ} {w : ℚ} {p q : Vec3 ℚ}
    (hw : 0 < w) (h10 : 10 ≤ w) (hp : inGrid R gmin w p) (hq : inGrid R gmin w q)
    (hd : dist2 p q < 25) :
    computeCell R gmin (1 / w) q ∈ visitedCellIds27 R gmin (1 / w) p := by
  obtain ⟨hdx, hdy, hdz⟩ := dist2_axis_lt hd
  have hdx2 : |p.x - gmin.x - (q.x - gmin.x)| < 5 := by
    rw [(by ring : p.x - gmin.x - (q.x - gmin.x) = p.x - q.x)]
    exact hdx
  have hdy2 : |p.y - gmin.y - (q.y - gmin.y)| < 5 := by
    rw [(by ring : p.y - gmin.y - (q.y - gmin.y) = p.y - q.y)]
    exact hdy
  have hdz2 : |p.z - gmin.z - (q.z - gmin.z)| < 5 := by
    rw [(by ring : p.z - gmin.z - (q.z - gmin.z) = p.z - q.z)]
    exact hdz
  obtain ⟨hqx0, hqx1, hqy0, hqy1, hqz0, hqz1⟩ := hq
  obtain ⟨hfx0, hfx1⟩ := coord_floor_bounds hw hqx0 hqx1
  obtain ⟨hfy0, hfy1⟩ := coord_floor_bounds hw hqy0 hqy1
  obtain ⟨hfz0, hfz1⟩ := coord_floor_bounds hw hqz0 hqz1
  rw [computeCell_eq_floor hw ⟨hqx0, hqx1, hqy0, hqy1, hqz0, hqz1⟩]
  unfold visitedCellIds27
  simp only [Vec3.sub_x, Vec3.sub_y, Vec3.sub_z]
  rw [mem_scanCells]
  refine ⟨⌊(q.x - gmin.x) * (1 / w)⌋ - ⌊(p.x - gmin.x) * (1 / w)⌋,
    floor_mem_range27 (axis_u_lt hw h10 hdx2),
    ⌊(q.y - gmin.y) * (1 / w)⌋ - ⌊(p.y - gmin.y) * (1 / w)⌋,
    floor_mem_range27 (axis_u_lt hw h10 hdy2),
    ⌊(q.z - gmin.z) * (1 / w)⌋ - ⌊(p.z - gmin.z) * (1 / w)⌋,
    floor_mem_range27 (axis_u_lt hw h10 hdz2),
    ⟨by omega, by omega, by omega, by omega, by omega, by omega⟩, ?_⟩
  congr 1 <;> omega

/-! ### Scattered-grid accumulation equals brute-force accumulation -/

theorem visitedCellIds_nodup (R : ℤ) (gmin : Vec3 ℚ) (inv : ℚ) (p : Vec3 ℚ) :
    (visitedCellIds R gmin inv p).Nodup := by
  unfold visitedCellIds
  exact scanCells_nodup (biasedOffsets_nodup _) (biasedOffsets_nodup _) (biasedOffsets_nodup _)

/-- Sorted-table accumulation over the visited cells equals brute-force
accumulation over all boids, stated abstractly: `keys`/`vals` is any sorted
key array with payload describing a permutation of the `N` boids consistent
with the cell assignment `cell`, and `visited` is any duplicate-free cell list
containing the cell of every in-range boid. -/
theorem slots_sum_eq_range_sum (N : ℕ) (keys vals visited : List ℤ)
    (pos vel1 : List (Vec3 ℚ)) (i : ℕ) (cell : ℕ → ℤ)
    (hkeyslen : keys.length = N)
    (hkeyssorted : List.Sorted (· ≤ ·) keys)
    (hvisnodup : visited.Nodup)
    (hslot : ∀ s : ℕ, s < N → ∃ j, j < N ∧ vals.getD s 0 = (j : ℤ) ∧ keys.getD s 0 = cell j)
    (hsurj : ∀ j, j < N → ∃ s, s < N ∧ vals.getD s 0 = (j : ℤ))
    (hvalinj : ∀ s t, s < N → t < N → vals.getD s 0 = vals.getD t 0 → s = t)
    (hcover : ∀ j, j < N → j ≠ i → dist2 (pos.getD i 0) (pos.getD j 0) < 25 →
      cell j ∈ visited) :
    ((visited.flatMap (cellSlots (kernIdentifyCellStartEnd keys).1
        (kernIdentifyCellStartEnd keys).2)).map (scatterDelta i vals pos vel1)).sum
    = ((List.range N).map (bruteDelta i pos vel1)).sum := by
  have hmemSlots : ∀ s : ℤ, s ∈ visited.flatMap (cellSlots (kernIdentifyCellStartEnd keys).1
      (kernIdentifyCellStartEnd keys).2) ↔
      0 ≤ s ∧ s.toNat < N ∧ keys.getD s.toNat 0 ∈ visited := by
    intro s
    rw [List.mem_flatMap]
    constructor
    · rintro ⟨c, hc, hs⟩
      obtain ⟨h0, hlen, hkey⟩ := (cellSlots_mem keys hkeyssorted c s).mp hs
      rw [hkeyslen] at hlen
      exact ⟨h0, hlen, by rw [hkey]; exact hc⟩
    · rintro ⟨h0, hlen, hmem⟩
      exact ⟨_, hmem, (cellSlots_mem keys hkeyssorted _ s).mpr
        ⟨h0, by rw [hkeyslen]; exact hlen, rfl⟩⟩
  have hSlotsNodup : (visited.flatMap (cellSlots (kernIdentifyCellStartEnd keys).1
      (kernIdentifyCellStartEnd keys).2)).Nodup := by
    rw [List.nodup_flatMap]
    constructor
    · intro c hc
      unfold cellSlots
      dsimp only
      split_ifs
      · exact List.nodup_nil
      · exact intRange_nodup _ _
    · refine List.Pairwise.imp ?_ hvisnodup
      intro c d hne s hsc hsd
      obtain ⟨_, _, hkc⟩ := (cellSlots_mem keys hkeyssorted c s).mp hsc
      obtain ⟨_, _, hkd⟩ := (cellSlots_mem keys hkeyssorted d s).mp hsd
      exact hne (by rw [← hkc, ← hkd])
  -- replace each slot delta by the brute delta of the stored boid index
  have hcongr : List.map (scatterDelta i vals pos vel1)
      (visited.flatMap (cellSlots (kernIdentifyCellStartEnd keys).1
        (kernIdentifyCellStartEnd keys).2)) =
      List.map (fun s : ℤ => bruteDelta i pos vel1 ((vals.getD s.toNat 0).toNat))
        (visited.flatMap (cellSlots (kernIdentifyCellStartEnd keys).1
          (kernIdentifyCellStartEnd keys).2)) := by
    refine List.map_congr_left ?_
    intro s hs
    obtain ⟨h0, hlen, _⟩ := (hmemSlots s).mp hs
    obtain ⟨j, hj, hvalj, _⟩ := hslot s.toNat hlen
    unfold scatterDelta bruteDelta
    dsimp only
    rw [hvalj]
    by_cases hji : j = i
    · rw [if_pos (Or.inr (by omega)), if_pos (by simpa [Int.toNat_ofNat] using hji)]
    · rw [if_neg (by push_neg; constructor <;> omega),
        if_neg (by simpa [Int.toNat_ofNat] using hji)]
  rw [hcongr]
  have hsplitmap : List.map (fun s : ℤ => bruteDelta i pos vel1 ((vals.getD s.toNat 0).toNat))
      (visited.flatMap (cellSlots (kernIdentifyCellStartEnd keys).1
        (kernIdentifyCellStartEnd keys).2)) =
      List.map (bruteDelta i pos vel1)
        ((visited.flatMap (cellSlots (kernIdentifyCellStartEnd keys).1
          (kernIdentifyCellStartEnd keys).2)).map (fun s : ℤ => (vals.getD s.toNat 0).toNat)) := by
    rw [List.map_map]
    rfl
  rw [hsplitmap]
  -- drop the zero contributions on both sides
  have hzero : ∀ (l : List ℕ), ∀ j ∈ l,
      (decide (j ≠ i ∧ dist2 (pos.getD i 0) (pos.getD j 0) < 25) = false) →
      bruteDelta i pos vel1 j = 0 := by
    intro l j _ hfalse
    rw [decide_eq_false_iff_not] at hfalse
    push_neg at hfalse
    unfold bruteDelta
    by_cases hji : j = i
    · rw [if_pos hji]
    · rw [if_neg hji]
      exact contribA_eq_zero _ (not_lt.mpr (hfalse hji))
  rw [sum_map_filter_eq _ (fun j => decide (j ≠ i ∧ dist2 (pos.getD i 0) (pos.getD j 0) < 25))
    _ (hzero _)]
  rw [sum_map_filter_eq _ (fun j => decide (j ≠ i ∧ dist2 (pos.getD i 0) (pos.getD j 0) < 25))
    (List.range N) (hzero _)]
  -- the filtered index lists are permutations, so the sums agree
  have hBmem : ∀ j : ℕ, j ∈ (visited.flatMap (cellSlots (kernIdentifyCellStartEnd keys).1
      (kernIdentifyCellStartEnd keys).2)).map (fun s : ℤ => (vals.getD s.toNat 0).toNat) ↔
      (j < N ∧ cell j ∈ visited) := by
    intro j
    rw [List.mem_map]
    constructor
    · rintro ⟨s, hs, rfl⟩
      obtain ⟨h0, hlen, hkeymem⟩ := (hmemSlots s).mp hs
      obtain ⟨j0, hj0, hvalj0, hkeyj0⟩ := hslot s.toNat hlen
      rw [hvalj0, Int.toNat_ofNat]
      rw [hkeyj0] at hkeymem
      exact ⟨hj0, hkeymem⟩
    · rintro ⟨hj, hcell⟩
      obtain ⟨s, hsN, hsval⟩ := hsurj j hj
      obtain ⟨j0, hj0, hvalj0, hkeyj0⟩ := hslot s hsN
      have hj0j : j0 = j := by
        rw [hvalj0] at hsval
        omega
      refine ⟨(s : ℤ), ?_, ?_⟩
      · rw [hmemSlots]
        refine ⟨by omega, ?_, ?_⟩
        · rw [Int.toNat_ofNat]
          exact hsN
        · rw [Int.toNat_ofNat, hkeyj0, hj0j]
          exact hcell
      · show (vals.getD ((s : ℤ)).toNat 0).toNat = j
        rw [Int.toNat_ofNat, hsval, Int.toNat_ofNat]
  have hBnodup : ((visited.flatMap (cellSlots (kernIdentifyCellStartEnd keys).1
      (kernIdentifyCellStartEnd keys).2)).map (fun s : ℤ => (vals.getD s.toNat 0).toNat)).Nodup := by
    refine List.Nodup.map_on ?_ hSlotsNodup
    intro s hs t ht heq
    obtain ⟨hs0, hslen, _⟩ := (hmemSlots s).mp hs
    obtain ⟨ht0, htlen, _⟩ := (hmemSlots t).mp ht
    obtain ⟨js, hjs, hvjs, _⟩ := hslot s.toNat hslen
    obtain ⟨jt, hjt, hvjt, _⟩ := hslot t.toNat htlen
    have : s.toNat = t.toNat := by
      apply hvalinj _ _ hslen htlen
      rw [hvjs, hvjt]
      rw [hvjs, hvjt, Int.toNat_ofNat, Int.toNat_ofNat] at heq
      omega
    omega
  have hperm : (((visited.flatMap (cellSlots (kernIdentifyCellStartEnd keys).1
      (kernIdentifyCellStartEnd keys).2)).map (fun s : ℤ => (vals.getD s.toNat 0).toNat)).filter
        (fun j => decide (j ≠ i ∧ dist2 (pos.getD i 0) (pos.getD j 0) < 25))).Perm
      ((List.range N).filter
        (fun j => decide (j ≠ i ∧ dist2 (pos.getD i 0) (pos.getD j 0) < 25))) := by
    rw [List.perm_ext_iff_of_nodup (hBnodup.filter _) ((List.nodup_range N).filter _)]
    intro j
    rw [List.mem_filter, List.mem_filter, hBmem, List.mem_range]
    constructor
    · rintro ⟨⟨hj, _⟩, hkeep⟩
      exact ⟨hj, hkeep⟩
    · rintro ⟨hj, hkeep⟩
      have hkeepP := of_decide_eq_true hkeep
      exact ⟨⟨hj, hcover j hj hkeepP.1 hkeepP.2⟩, hkeep⟩
  exact (hperm.map (bruteDelta i pos vel1)).sum_eq

/-- The per-agent heart of the strategy-equivalence claim: the biased grid scan
through the sorted token array computes exactly the brute-force pre-clamp
velocity. -/
theorem scatteredPreVel_eq_brute (N : ℕ) (R : ℤ) (gmin : Vec3 ℚ) (w : ℚ)
    (pos vel1 : List (Vec3 ℚ)) (hw : 0 < w) (h10 : 10 ≤ w)
    (hgrid : ∀ j, j < N → inGrid R gmin w (pos.getD j 0)) (i : ℕ) (hi : i < N) :
    scatteredPreVel N R gmin (1 / w)
      (kernIdentifyCellStartEnd (sortedKeys N R gmin (1 / w) pos)).1
      (kernIdentifyCellStartEnd (sortedKeys N R gmin (1 / w) pos)).2
      (sortedVals N R gmin (1 / w) pos) pos vel1 i
    = bruteForcePreVel N pos vel1 i := by
  unfold scatteredPreVel bruteForcePreVel computeVelocityChange
  dsimp only
  congr 1
  congr 1
  calc (visitedCellIds R gmin (1 / w) (pos.getD i 0)).foldl
        (fun a cid => computeVelScattered i
          (kernIdentifyCellStartEnd (sortedKeys N R gmin (1 / w) pos)).1
          (kernIdentifyCellStartEnd (sortedKeys N R gmin (1 / w) pos)).2
          (sortedVals N R gmin (1 / w) pos) pos vel1 cid a) accum0
      = ((visitedCellIds R gmin (1 / w) (pos.getD i 0)).flatMap
          (cellSlots (kernIdentifyCellStartEnd (sortedKeys N R gmin (1 / w) pos)).1
            (kernIdentifyCellStartEnd (sortedKeys N R gmin (1 / w) pos)).2)).foldl
          (scatterBody i (sortedVals N R gmin (1 / w) pos) pos vel1) accum0 :=
        foldl_cells_eq_foldl_flatMap _ _ _ _
    _ = accum0 + (((visitedCellIds R gmin (1 / w) (pos.getD i 0)).flatMap
          (cellSlots (kernIdentifyCellStartEnd (sortedKeys N R gmin (1 / w) pos)).1
            (kernIdentifyCellStartEnd (sortedKeys N R gmin (1 / w) pos)).2)).map
          (scatterDelta i (sortedVals N R gmin (1 / w) pos) pos vel1)).sum :=
        foldl_eq_sum _ _ (scatterBody_eq_add i (sortedVals N R gmin (1 / w) pos) pos vel1) _ _
    _ = accum0 + ((List.range N).map (bruteDelta i pos vel1)).sum := by
        congr 1
        exact slots_sum_eq_range_sum N (sortedKeys N R gmin (1 / w) pos)
          (sortedVals N R gmin (1 / w) pos)
          (visitedCellIds R gmin (1 / w) (pos.getD i 0)) pos vel1 i
          (cellOf R gmin (1 / w) pos)
          (sortedKeys_length N R gmin (1 / w) pos)
          (sortedKeys_sorted N R gmin (1 / w) pos)
          (visitedCellIds_nodup R gmin (1 / w) (pos.getD i 0))
          (fun s hs => pipeline_slot N R gmin (1 / w) pos hs)
          (fun j hj => sortedVals_surj N R gmin (1 / w) pos hj)
          (fun s t hs ht h => sortedVals_getD_inj N R gmin (1 / w) pos hs ht h)
          (fun j hj hne hd => visited_covers hw h10 (hgrid i hi) (hgrid j hj) hd)
    _ = (List.range N).foldl
          (fun a j => if j = i then a
            else ruleStep (pos.getD i 0) (pos.getD j 0) (vel1.getD j 0) a) accum0 :=
        (foldl_eq_sum _ _ (fun a x => bruteBody_eq_add i pos vel1 a x) _ _).symm

/-- `kernReorderData` reads through the sorted token array. -/
theorem kernReorderData_getD (N : ℕ) (pos vel : List (Vec3 ℚ)) (indices : List ℤ)
    {k : ℕ} (hk : k < N) :
    (kernReorderData N pos vel indices).1.getD k 0 =
      pos.getD ((indices.getD k 0).toNat) 0 ∧
    (kernReorderData N pos vel indices).2.getD k 0 =
      vel.getD ((indices.getD k 0).toNat) 0 := by
  unfold kernReorderData
  exact ⟨getD_map_range _ hk _, getD_map_range _ hk _⟩

/-- On the reordered data, slot `k` of the coherent query computes exactly what
the scattered query computes for the boid stored at slot `k`. -/
theorem coherentPreVel_eq_scattered (N : ℕ) (R : ℤ) (gmin : Vec3 ℚ) (w : ℚ)
    (pos vel1 : List (Vec3 ℚ)) (k : ℕ) (hk : k < N) :
    coherentPreVel N R gmin (1 / w)
      (kernIdentifyCellStartEnd (sortedKeys N R gmin (1 / w) pos)).1
      (kernIdentifyCellStartEnd (sortedKeys N R gmin (1 / w) pos)).2
      (kernReorderData N pos vel1 (sortedVals N R gmin (1 / w) pos)).1
      (kernReorderData N pos vel1 (sortedVals N R gmin (1 / w) pos)).2 k
    = scatteredPreVel N R gmin (1 / w)
      (kernIdentifyCellStartEnd (sortedKeys N R gmin (1 / w) pos)).1
      (kernIdentifyCellStartEnd (sortedKeys N R gmin (1 / w) pos)).2
      (sortedVals N R gmin (1 / w) pos) pos vel1
      (((sortedVals N R gmin (1 / w) pos).getD k 0).toNat) := by
  obtain ⟨j, hj, hvalk, _⟩ := pipeline_slot N R gmin (1 / w) pos hk
  obtain ⟨hrp, hrv⟩ := kernReorderData_getD N pos vel1 (sortedVals N R gmin (1 / w) pos) hk
  have hmemSlots : ∀ s : ℤ, s ∈ (visitedCellIds R gmin (1 / w) (pos.getD j 0)).flatMap
      (cellSlots (kernIdentifyCellStartEnd (sortedKeys N R gmin (1 / w) pos)).1
        (kernIdentifyCellStartEnd (sortedKeys N R gmin (1 / w) pos)).2) →
      0 ≤ s ∧ s.toNat < N := by
    intro s hs
    obtain ⟨c, _, hsc⟩ := List.mem_flatMap.mp hs
    obtain ⟨h0, hlen, _⟩ := (cellSlots_mem _ (sortedKeys_sorted N R gmin (1 / w) pos) c s).mp hsc
    rw [sortedKeys_length] at hlen
    exact ⟨h0, hlen⟩
  unfold coherentPreVel scatteredPreVel
  dsimp only
  rw [hrp, hrv, hvalk, Int.toNat_ofNat]
  congr 1
  congr 1
  calc (visitedCellIds R gmin (1 / w) (pos.getD j 0)).foldl
        (fun a cid => computeVelCoherent k
          (kernIdentifyCellStartEnd (sortedKeys N R gmin (1 / w) pos)).1
          (kernIdentifyCellStartEnd (sortedKeys N R gmin (1 / w) pos)).2
          (kernReorderData N pos vel1 (sortedVals N R gmin (1 / w) pos)).1
          (kernReorderData N pos vel1 (sortedVals N R gmin (1 / w) pos)).2 cid a) accum0
      = ((visitedCellIds R gmin (1 / w) (pos.getD j 0)).flatMap
          (cellSlots (kernIdentifyCellStartEnd (sortedKeys N R gmin (1 / w) pos)).1
            (kernIdentifyCellStartEnd (sortedKeys N R gmin (1 / w) pos)).2)).foldl
          (coherentBody k (kernReorderData N pos vel1 (sortedVals N R gmin (1 / w) pos)).1
            (kernReorderData N pos vel1 (sortedVals N R gmin (1 / w) pos)).2) accum0 :=
        foldl_cells_eq_foldl_flatMap _ _ _ _
    _ = accum0 + (((visitedCellIds R gmin (1 / w) (pos.getD j 0)).flatMap
          (cellSlots (kernIdentifyCellStartEnd (sortedKeys N R gmin (1 / w) pos)).1
            (kernIdentifyCellStartEnd (sortedKeys N R gmin (1 / w) pos)).2)).map
          (coherentDelta k (kernReorderData N pos vel1 (sortedVals N R gmin (1 / w) pos)).1
            (kernReorderData N pos vel1 (sortedVals N R gmin (1 / w) pos)).2)).sum :=
        foldl_eq_sum _ _ (coherentBody_eq_add k _ _) _ _
    _ = accum0 + (((visitedCellIds R gmin (1 / w) (pos.getD j 0)).flatMap
          (cellSlots (kernIdentifyCellStartEnd (sortedKeys N R gmin (1 / w) pos)).1
            (kernIdentifyCellStartEnd (sortedKeys N R gmin (1 / w) pos)).2)).map
          (scatterDelta j (sortedVals N R gmin (1 / w) pos) pos vel1)).sum := by
        congr 1
        congr 1
        refine List.map_congr_left ?_
        intro s hs
        obtain ⟨h0, hlen⟩ := hmemSlots s hs
        obtain ⟨j0, hj0, hvals, _⟩ := pipeline_slot N R gmin (1 / w) pos hlen
        obtain ⟨hrps, hrvs⟩ :=
          kernReorderData_getD N pos vel1 (sortedVals N R gmin (1 / w) pos) hlen
        unfold coherentDelta scatterDelta
        have hiff : s = (k : ℤ) ↔
            (sortedVals N R gmin (1 / w) pos).getD s.toNat 0 = (j : ℤ) := by
          constructor
          · intro hsk
            rw [hsk, Int.toNat_ofNat, hvalk]
          · intro hsj
            have : s.toNat = k := sortedVals_getD_inj N R gmin (1 / w) pos hlen hk
              (by rw [hsj, hvalk])
            omega
        by_cases hsk : s = (k : ℤ)
        · rw [if_pos hsk, if_pos (Or.inr (hiff.mp hsk))]
        · rw [if_neg hsk, if_neg ?_]
          · rw [hrps, hrvs, hvals, Int.toNat_ofNat, hrp, hvalk, Int.toNat_ofNat]
          · push_neg
            refine ⟨by rw [hvals]; omega, ?_⟩
            intro hcon
            exact hsk (hiff.mpr hcon)
    _ = ((visitedCellIds R gmin (1 / w) (pos.getD j 0)).flatMap
          (cellSlots (kernIdentifyCellStartEnd (sortedKeys N R gmin (1 / w) pos)).1
            (kernIdentifyCellStartEnd (sortedKeys N R gmin (1 / w) pos)).2)).foldl
          (scatterBody j (sortedVals N R gmin (1 / w) pos) pos vel1) accum0 :=
        (foldl_eq_sum _ _
          (scatterBody_eq_add j (sortedVals N R gmin (1 / w) pos) pos vel1) _ _).symm
    _ = (visitedCellIds R gmin (1 / w) (pos.getD j 0)).foldl
          (fun a cid => computeVelScattered j
            (kernIdentifyCellStartEnd (sortedKeys N R gmin (1 / w) pos)).1
            (kernIdentifyCellStartEnd (sortedKeys N R gmin (1 / w) pos)).2
            (sortedVals N R gmin (1 / w) pos) pos vel1 cid a) accum0 :=
        (foldl_cells_eq_foldl_flatMap _ _ _ _).symm

/-! ### Step-driver equivalences -/

theorem map_getD_self {β : Type} (l : List β) (n : ℕ) (hn : l.length = n) (d : β) :
    (List.range n).map (fun j => l.getD j d) = l := by
  apply List.ext_getElem
  · simp [hn]
  · intro m h1 h2
    rw [List.getElem_map, List.getElem_range, List.getD_eq_getElem _ _ (by omega)]

/-- Reading the sorted token array slot by slot is a permutation of `0..N-1`. -/
theorem sigma_perm (N : ℕ) (R : ℤ) (gmin : Vec3 ℚ) (inv : ℚ) (pos : List (Vec3 ℚ)) :
    (((List.range N).map (fun k => ((sortedVals N R gmin inv pos).getD k 0).toNat))).Perm
      (List.range N) := by
  have h1 : (List.range N).map (fun k => ((sortedVals N R gmin inv pos).getD k 0).toNat) =
      (sortedVals N R gmin inv pos).map Int.toNat := by
    apply List.ext_getElem
    · simp [sortedVals_length]
    · intro m hm1 hm2
      rw [List.getElem_map, List.getElem_range, List.getElem_map,
        List.getD_eq_getElem _ _ (by simpa using hm2)]
  rw [h1]
  have h2 := (sortedVals_perm N R gmin inv pos).map Int.toNat
  have h3 : ((List.range N).map Int.ofNat).map Int.toNat = List.range N := by
    rw [List.map_map]
    calc (List.range N).map (Int.toNat ∘ Int.ofNat)
        = (List.range N).map id := List.map_congr_left (fun a _ => Int.toNat_ofNat a)
      _ = List.range N := List.map_id _
  refine h2.trans ?_
  rw [h3]

/-- The scattered-grid step is extensionally the brute-force step. -/
theorem step_scattered_eq_naive (R : ℤ) (gmin : Vec3 ℚ) (w : ℚ) (N : ℕ) (dt : ℚ)
    (pos vel1 : List (Vec3 ℚ)) (hw : 0 < w) (h10 : 10 ≤ w)
    (hgrid : ∀ j, j < N → inGrid R gmin w (pos.getD j 0)) :
    stepSimulationScatteredGrid R gmin w N dt pos vel1 =
      stepSimulationNaive N dt pos vel1 := by
  have hker : kernUpdateVelNeighborSearchScattered N R gmin (1 / w)
      (kernIdentifyCellStartEnd (sortedKeys N R gmin (1 / w) pos)).1
      (kernIdentifyCellStartEnd (sortedKeys N R gmin (1 / w) pos)).2
      (sortedVals N R gmin (1 / w) pos) pos vel1
      = kernUpdateVelocityBruteForce N pos vel1 := by
    unfold kernUpdateVelNeighborSearchScattered kernUpdateVelocityBruteForce
    refine List.map_congr_left ?_
    intro i hi
    rw [scatteredPreVel_eq_brute N R gmin w pos vel1 hw h10 hgrid i (List.mem_range.mp hi)]
  unfold stepSimulationScatteredGrid stepSimulationNaive
  dsimp only
  rw [hker]

/-- The coherent-grid step, slot by slot, is the brute-force step read through
the sort permutation. -/
theorem step_coherent_eq (R : ℤ) (gmin : Vec3 ℚ) (w : ℚ) (N : ℕ) (dt : ℚ)
    (pos vel1 : List (Vec3 ℚ)) (hw : 0 < w) (h10 : 10 ≤ w)
    (hgrid : ∀ j, j < N → inGrid R gmin w (pos.getD j 0)) :
    stepSimulationCoherentGrid R gmin w N dt pos vel1 =
      ((List.range N).map (fun k => (stepSimulationNaive N dt pos vel1).1.getD
          (((sortedVals N R gmin (1 / w) pos).getD k 0).toNat) 0),
       (List.range N).map (fun k => (stepSimulationNaive N dt pos vel1).2.getD
          (((sortedVals N R gmin (1 / w) pos).getD k 0).toNat) 0)) := by
  have hvel : ∀ k, k < N →
      clampSpeed (toR (coherentPreVel N R gmin (1 / w)
        (kernIdentifyCellStartEnd (sortedKeys N R gmin (1 / w) pos)).1
        (kernIdentifyCellStartEnd (sortedKeys N R gmin (1 / w) pos)).2
        (kernReorderData N pos vel1 (sortedVals N R gmin (1 / w) pos)).1
        (kernReorderData N pos vel1 (sortedVals N R gmin (1 / w) pos)).2 k))
      = (stepSimulationNaive N dt pos vel1).2.getD
          (((sortedVals N R gmin (1 / w) pos).getD k 0).toNat) 0 := by
    intro k hk
    obtain ⟨j, hj, hvalk, _⟩ := pipeline_slot N R gmin (1 / w) pos hk
    rw [coherentPreVel_eq_scattered N R gmin w pos vel1 k hk, hvalk, Int.toNat_ofNat,
      scatteredPreVel_eq_brute N R gmin w pos vel1 hw h10 hgrid j hj]
    unfold stepSimulationNaive kernUpdateVelocityBruteForce
    dsimp only
    rw [getD_map_range _ hj]
  have hpos : ∀ k, k < N →
      (kernReorderData N pos vel1 (sortedVals N R gmin (1 / w) pos)).1.getD k 0 =
        pos.getD (((sortedVals N R gmin (1 / w) pos).getD k 0).toNat) 0 := by
    intro k hk
    exact (kernReorderData_getD N pos vel1 (sortedVals N R gmin (1 / w) pos) hk).1
  unfold stepSimulationCoherentGrid
  dsimp only
  refine Prod.ext ?_ ?_
  · show (List.range N).map _ = (List.range N).map _
    refine List.map_congr_left ?_
    intro k hk
    have hkN := List.mem_range.mp hk
    rw [show (kernUpdateVelNeighborSearchCoherent N R gmin (1 / w)
        (kernIdentifyCellStartEnd (sortedKeys N R gmin (1 / w) pos)).1
        (kernIdentifyCellStartEnd (sortedKeys N R gmin (1 / w) pos)).2
        (kernReorderData N pos vel1 (sortedVals N R gmin (1 / w) pos)).1
        (kernReorderData N pos vel1 (sortedVals N R gmin (1 / w) pos)).2).getD k 0 =
      clampSpeed (toR (coherentPreVel N R gmin (1 / w)
        (kernIdentifyCellStartEnd (sortedKeys N R gmin (1 / w) pos)).1
        (kernIdentifyCellStartEnd (sortedKeys N R gmin (1 / w) pos)).2
        (kernReorderData N pos vel1 (sortedVals N R gmin (1 / w) pos)).1
        (kernReorderData N pos vel1 (sortedVals N R gmin (1 / w) pos)).2 k))
      from by unfold kernUpdateVelNeighborSearchCoherent; exact getD_map_range _ hkN _]
    rw [hvel k hkN, hpos k hkN]
    unfold stepSimulationNaive
    dsimp only
    rw [getD_map_range _ (by
      obtain ⟨j, hj, hvalk, _⟩ := pipeline_slot N R gmin (1 / w) pos hkN
      rw [hvalk, Int.toNat_ofNat]
      exact hj)]
  · show (List.range N).map _ = (List.range N).map _
    refine List.map_congr_left ?_
    intro k hk
    have hkN := List.mem_range.mp hk
    exact hvel k hkN

/-! ### Helpers for the cross-strategy claims -/

theorem wrapCoord_eq_self {α : Type} [LinearOrderedField α] {s t : α}
    (h1 : -s ≤ t) (h2 : t ≤ s) : wrapCoord s t = t := by
  unfold wrapCoord
  rw [if_neg (by linarith : ¬ t < -s), if_neg (by linarith : ¬ s < t)]

theorem stepNaive_length1 (N : ℕ) (dt : ℚ) (pos vel1 : List (Vec3 ℚ)) :
    (stepSimulationNaive N dt pos vel1).1.length = N := by
  unfold stepSimulationNaive
  dsimp only
  rw [List.length_map, List.length_range]

theorem stepNaive_length2 (N : ℕ) (dt : ℚ) (pos vel1 : List (Vec3 ℚ)) :
    (stepSimulationNaive N dt pos vel1).2.length = N := by
  unfold stepSimulationNaive kernUpdateVelocityBruteForce
  dsimp only
  rw [List.length_map, List.length_range]

theorem maxRuleDistance_eq : max (max rule1Distance rule2Distance) rule3Distance = (5 : ℚ) := by
  norm_num [rule1Distance, rule2Distance, rule3Distance, max_def]

/-- With `dt = 0` the brute-force step returns each boid's position unchanged
(`x` axis; the wrap is the identity inside the scene bounds). -/
theorem stepNaive_pos_x_dt0 (N : ℕ) (pos vel1 : List (Vec3 ℚ)) {i : ℕ} (hi : i < N)
    (hx1 : -scene_scale ≤ (pos.getD i 0).x) (hx2 : (pos.getD i 0).x ≤ scene_scale) :
    ((stepSimulationNaive N 0 pos vel1).1.getD i 0).x = (((pos.getD i 0).x : ℚ) : ℝ) := by
  unfold stepSimulationNaive
  dsimp only
  rw [getD_map_range _ hi]
  show wrapCoord ((scene_scale : ℚ) : ℝ)
      ((toR (pos.getD i 0)).x + (((0 : ℚ) : ℝ)) *
        ((kernUpdateVelocityBruteForce N pos vel1).getD i 0).x) = _
  rw [(by push_cast; ring : (toR (pos.getD i 0)).x + (((0 : ℚ) : ℝ)) *
      ((kernUpdateVelocityBruteForce N pos vel1).getD i 0).x = (toR (pos.getD i 0)).x)]
  refine wrapCoord_eq_self ?_ ?_
  · show -((scene_scale : ℚ) : ℝ) ≤ (((pos.getD i 0).x : ℚ) : ℝ)
    exact_mod_cast hx1
  · show (((pos.getD i 0).x : ℚ) : ℝ) ≤ ((scene_scale : ℚ) : ℝ)
    exact_mod_cast hx2

/-! ### Concrete evaluation of the pipeline at the default configuration -/

theorem initGridCellWidth_eq : initGridCellWidth = 10 := by
  norm_num [initGridCellWidth, rule1Distance, rule2Distance, rule3Distance, max_def]

theorem initGridSideCount_eq : initGridSideCount = 22 := by
  norm_num [initGridSideCount, initHalfSideCount, truncQ, initGridCellWidth, scene_scale,
    rule1Distance, rule2Distance, rule3Distance, max_def]

theorem initGridMinimum_eq : initGridMinimum = ⟨-110, -110, -110⟩ := by
  norm_num [initGridMinimum, initGridCellWidth, initHalfSideCount, truncQ, scene_scale,
    rule1Distance, rule2Distance, rule3Distance, max_def]

theorem twoBoids_cells :
    pipelineCellIds 2 22 ⟨-110, -110, -110⟩ (1 / 10) [⟨50, 0, 0⟩, ⟨-50, 0, 0⟩] =
      [5582, 5572] := by
  norm_num [pipelineCellIds, kernComputeIndices, computeCell, truncQ, gridIndex3Dto1D,
    List.range_succ]

theorem twoBoids_idx :
    (kernComputeIndices 2 22 ⟨-110, -110, -110⟩ (1 / 10) [⟨50, 0, 0⟩, ⟨-50, 0, 0⟩]).1 =
      [0, 1] := by
  simp [kernComputeIndices, List.range_succ]

unseal List.merge List.mergeSort in
theorem twoBoids_sort : sortPairs [5582, 5572] [0, 1] = [(5572, 1), (5582, 0)] := by decide

theorem twoBoids_sortedVals :
    sortedVals 2 22 ⟨-110, -110, -110⟩ (1 / 10) [⟨50, 0, 0⟩, ⟨-50, 0, 0⟩] = [1, 0] := by
  unfold sortedVals pipelineSorted
  rw [twoBoids_cells, twoBoids_idx, twoBoids_sort]
  rfl

theorem twoBoids_inGrid : ∀ j, j < 2 → inGrid 22 ⟨-110, -110, -110⟩ 10
    (([⟨50, 0, 0⟩, ⟨-50, 0, 0⟩] : List (Vec3 ℚ)).getD j 0) := by
  intro j hj
  rcases (by omega : j = 0 ∨ j = 1) with rfl | rfl <;> norm_num [inGrid]

/-- **C1** (corrected).  Under the hypotheses the deployed configuration
satisfies — positive cell width at least twice the largest rule radius, all
positions inside the grid volume — one scattered-grid step is EXACTLY one
brute-force step (no tolerance needed, since the embedding works in exact
arithmetic and the three rule sums traverse the same neighbor multiset).  The
coherent-grid step, however, is NOT per-agent equal to the others: its final
copy-back copies the still-sorted buffers, so output slot `k` holds the
brute-force result of agent `arrayIndices[k]` (the sort permutation), and the
output lists agree with the brute-force ones only up to that permutation. -/
theorem claimC1 (R : ℤ) (gmin : Vec3 ℚ) (w : ℚ) (N : ℕ) (dt : ℚ)
    (pos vel1 : List (Vec3 ℚ)) (hw : 0 < w)
    (h2r : 2 * max (max rule1Distance rule2Distance) rule3Distance ≤ w)
    (hgrid : ∀ j, j < N → inGrid R gmin w (pos.getD j 0)) :
    stepSimulationScatteredGrid R gmin w N dt pos vel1 =
      stepSimulationNaive N dt pos vel1 ∧
    (∀ k, k < N →
      (stepSimulationCoherentGrid R gmin w N dt pos vel1).1.getD k 0 =
        (stepSimulationNaive N dt pos vel1).1.getD
          (((sortedVals N R gmin (1 / w) pos).getD k 0).toNat) 0 ∧
      (stepSimulationCoherentGrid R gmin w N dt pos vel1).2.getD k 0 =
        (stepSimulationNaive N dt pos vel1).2.getD
          (((sortedVals N R gmin (1 / w) pos).getD k 0).toNat) 0) ∧
    ((stepSimulationCoherentGrid R gmin w N dt pos vel1).1).Perm
      ((stepSimulationNaive N dt pos vel1).1) ∧
    ((stepSimulationCoherentGrid R gmin w N dt pos vel1).2).Perm
      ((stepSimulationNaive N dt pos vel1).2) := by
  have h10 : (10 : ℚ) ≤ w := by
    rw [maxRuleDistance_eq] at h2r
    linarith
  have hsc := step_scattered_eq_naive R gmin w N dt pos vel1 hw h10 hgrid
  have hco := step_coherent_eq R gmin w N dt pos vel1 hw h10 hgrid
  have hgen : ∀ l : List (Vec3 ℝ), l.length = N →
      ((List.range N).map (fun k =>
        l.getD (((sortedVals N R gmin (1 / w) pos).getD k 0).toNat) 0)).Perm l := by
    intro l hl
    have hm : (List.range N).map (fun k =>
        l.getD (((sortedVals N R gmin (1 / w) pos).getD k 0).toNat) 0)
        = ((List.range N).map (fun k =>
            ((sortedVals N R gmin (1 / w) pos).getD k 0).toNat)).map
          (fun j => l.getD j 0) := by
      rw [List.map_map]
      rfl
    rw [hm]
    have hperm := (sigma_perm N R gmin (1 / w) pos).map (fun j => l.getD j 0)
    refine hperm.trans ?_
    rw [map_getD_self l N hl 0]
  refine ⟨hsc, ?_, ?_, ?_⟩
  · intro k hk
    rw [hco]
    exact ⟨getD_map_range _ hk _, getD_map_range _ hk _⟩
  · rw [hco]
    exact hgen _ (stepNaive_length1 N dt pos vel1)
  · rw [hco]
    exact hgen _ (stepNaive_length2 N dt pos vel1)

/-- Witness for C1 at a concrete input: one boid at the origin, the default
grid parameters, `dt = 0`. -/
theorem claimC1_witness :
    ((0 : ℚ) < 10 ∧
      2 * max (max rule1Distance rule2Distance) rule3Distance ≤ (10 : ℚ) ∧
      (∀ j, j < 1 → inGrid 22 ⟨-110, -110, -110⟩ 10
        (([⟨0, 0, 0⟩] : List (Vec3 ℚ)).getD j 0))) ∧
    (stepSimulationScatteredGrid 22 ⟨-110, -110, -110⟩ 10 1 0 [⟨0, 0, 0⟩] [⟨0, 0, 0⟩] =
      stepSimulationNaive 1 0 [⟨0, 0, 0⟩] [⟨0, 0, 0⟩] ∧
    (∀ k, k < 1 →
      (stepSimulationCoherentGrid 22 ⟨-110, -110, -110⟩ 10 1 0
          [⟨0, 0, 0⟩] [⟨0, 0, 0⟩]).1.getD k 0 =
        (stepSimulationNaive 1 0 [⟨0, 0, 0⟩] [⟨0, 0, 0⟩]).1.getD
          (((sortedVals 1 22 ⟨-110, -110, -110⟩ (1 / 10) [⟨0, 0, 0⟩]).getD k 0).toNat) 0 ∧
      (stepSimulationCoherentGrid 22 ⟨-110, -110, -110⟩ 10 1 0
          [⟨0, 0, 0⟩] [⟨0, 0, 0⟩]).2.getD k 0 =
        (stepSimulationNaive 1 0 [⟨0, 0, 0⟩] [⟨0, 0, 0⟩]).2.getD
          (((sortedVals 1 22 ⟨-110, -110, -110⟩ (1 / 10) [⟨0, 0, 0⟩]).getD k 0).toNat) 0) ∧
    ((stepSimulationCoherentGrid 22 ⟨-110, -110, -110⟩ 10 1 0
        [⟨0, 0, 0⟩] [⟨0, 0, 0⟩]).1).Perm
      ((stepSimulationNaive 1 0 [⟨0, 0, 0⟩] [⟨0, 0, 0⟩]).1) ∧
    ((stepSimulationCoherentGrid 22 ⟨-110, -110, -110⟩ 10 1 0
        [⟨0, 0, 0⟩] [⟨0, 0, 0⟩]).2).Perm
      ((stepSimulationNaive 1 0 [⟨0, 0, 0⟩] [⟨0, 0, 0⟩]).2)) :=
  ⟨⟨by norm_num,
    by norm_num [rule1Distance, rule2Distance, rule3Distance, max_def],
    by
      intro j hj
      have hj0 : j = 0 := by omega
      subst hj0
      norm_num [inGrid]⟩,
   claimC1 22 ⟨-110, -110, -110⟩ 10 1 0 [⟨0, 0, 0⟩] [⟨0, 0, 0⟩]
     (by norm_num)
     (by norm_num [rule1Distance, rule2Distance, rule3Distance, max_def])
     (by
       intro j hj
       have hj0 : j = 0 := by omega
       subst hj0
       norm_num [inGrid])⟩

/-- **C1 counterexample.**  At the program's own grid configuration, two boids
at `(±50, 0, 0)`, zero velocities and `dt = 0`: the brute-force step leaves
agent 0 at `x = 50`, but slot 0 of the coherent-grid step's position output is
`x = -50` — the copy-back returned the sorted buffer, so slot 0 holds the
other agent's data, and the per-agent difference is `100`, far beyond any
`1e-4` tolerance. -/
theorem claimC1_counterexample :
    ((stepSimulationCoherentGrid initGridSideCount initGridMinimum initGridCellWidth
        2 0 [⟨50, 0, 0⟩, ⟨-50, 0, 0⟩] [⟨0, 0, 0⟩, ⟨0, 0, 0⟩]).1.getD 0 0).x = -50 ∧
    ((stepSimulationNaive 2 0 [⟨50, 0, 0⟩, ⟨-50, 0, 0⟩]
        [⟨0, 0, 0⟩, ⟨0, 0, 0⟩]).1.getD 0 0).x = 50 ∧
    (1 / 10000 : ℝ) <
      |((stepSimulationCoherentGrid initGridSideCount initGridMinimum initGridCellWidth
          2 0 [⟨50, 0, 0⟩, ⟨-50, 0, 0⟩] [⟨0, 0, 0⟩, ⟨0, 0, 0⟩]).1.getD 0 0).x -
        ((stepSimulationNaive 2 0 [⟨50, 0, 0⟩, ⟨-50, 0, 0⟩]
            [⟨0, 0, 0⟩, ⟨0, 0, 0⟩]).1.getD 0 0).x| := by
  rw [initGridSideCount_eq, initGridMinimum_eq, initGridCellWidth_eq]
  have hco := step_coherent_eq 22 ⟨-110, -110, -110⟩ 10 2 0
    [⟨50, 0, 0⟩, ⟨-50, 0, 0⟩] [⟨0, 0, 0⟩, ⟨0, 0, 0⟩]
    (by norm_num) (by norm_num) twoBoids_inGrid
  have hnaive0 : ((stepSimulationNaive 2 0 [⟨50, 0, 0⟩, ⟨-50, 0, 0⟩]
      [⟨0, 0, 0⟩, ⟨0, 0, 0⟩]).1.getD 0 0).x = ((50 : ℚ) : ℝ) :=
    stepNaive_pos_x_dt0 2 [⟨50, 0, 0⟩, ⟨-50, 0, 0⟩] [⟨0, 0, 0⟩, ⟨0, 0, 0⟩]
      (show 0 < 2 by norm_num) (by norm_num [scene_scale]) (by norm_num [scene_scale])
  have hnaive1 : ((stepSimulationNaive 2 0 [⟨50, 0, 0⟩, ⟨-50, 0, 0⟩]
      [⟨0, 0, 0⟩, ⟨0, 0, 0⟩]).1.getD 1 0).x = ((-50 : ℚ) : ℝ) :=
    stepNaive_pos_x_dt0 2 [⟨50, 0, 0⟩, ⟨-50, 0, 0⟩] [⟨0, 0, 0⟩, ⟨0, 0, 0⟩]
      (show 1 < 2 by norm_num) (by norm_num [scene_scale]) (by norm_num [scene_scale])
  have hc0 : (stepSimulationCoherentGrid 22 ⟨-110, -110, -110⟩ 10 2 0
      [⟨50, 0, 0⟩, ⟨-50, 0, 0⟩] [⟨0, 0, 0⟩, ⟨0, 0, 0⟩]).1.getD 0 0
      = (stepSimulationNaive 2 0 [⟨50, 0, 0⟩, ⟨-50, 0, 0⟩]
          [⟨0, 0, 0⟩, ⟨0, 0, 0⟩]).1.getD 1 0 := by
    rw [hco]
    dsimp only
    rw [getD_map_range (fun k => (stepSimulationNaive 2 0 [⟨50, 0, 0⟩, ⟨-50, 0, 0⟩]
        [⟨0, 0, 0⟩, ⟨0, 0, 0⟩]).1.getD
        (((sortedVals 2 22 ⟨-110, -110, -110⟩ (1 / 10)
          [⟨50, 0, 0⟩, ⟨-50, 0, 0⟩]).getD k 0).toNat) 0) (show 0 < 2 by norm_num) 0]
    rw [twoBoids_sortedVals]
    rfl
  refine ⟨?_, ?_, ?_⟩
  · rw [hc0, hnaive1]
    norm_num
  · rw [hnaive0]
    norm_num
  · rw [hc0, hnaive1, hnaive0]
    rw [(by norm_num : ((-50 : ℚ) : ℝ) - ((50 : ℚ) : ℝ) = -(100 : ℝ)), abs_neg,
      abs_of_nonneg (by norm_num : (0 : ℝ) ≤ 100)]
    norm_num

/-- Membership in the accumulated-neighbor list of a scan over `cells`, for the
real pipeline's range tables and token array: exactly the in-range non-self
boids whose cell is among `cells`. -/
theorem accumulatedNeighbors_mem (N : ℕ) (R : ℤ) (gmin : Vec3 ℚ) (w : ℚ)
    (pos : List (Vec3 ℚ)) (i : ℕ) (r : ℚ) (cells : List ℤ) (b : ℤ) :
    b ∈ accumulatedNeighbors
        (kernIdentifyCellStartEnd (sortedKeys N R gmin (1 / w) pos)).1
        (kernIdentifyCellStartEnd (sortedKeys N R gmin (1 / w) pos)).2
        (sortedVals N R gmin (1 / w) pos) pos i r cells ↔
      ∃ j : ℕ, j < N ∧ b = (j : ℤ) ∧ (j : ℤ) ≠ (i : ℤ) ∧
        dist2 (pos.getD i 0) (pos.getD j 0) < r ^ 2 ∧
        cellOf R gmin (1 / w) pos j ∈ cells := by
  unfold accumulatedNeighbors
  rw [List.mem_filter]
  constructor
  · rintro ⟨hmem, hpred⟩
    rw [List.mem_map] at hmem
    obtain ⟨s, hsmem, hbeq0⟩ := hmem
    have hbeq : (sortedVals N R gmin (1 / w) pos).getD s.toNat 0 = b := hbeq0
    rw [List.mem_flatMap] at hsmem
    obtain ⟨c, hc, hslot⟩ := hsmem
    rw [cellSlots_mem _ (sortedKeys_sorted N R gmin (1 / w) pos) c s] at hslot
    obtain ⟨hs0, hslen, hkey⟩ := hslot
    have hsN : s.toNat < N := by
      rw [sortedKeys_length] at hslen
      exact hslen
    obtain ⟨j, hj, hval, hkeyj⟩ := pipeline_slot N R gmin (1 / w) pos hsN
    rw [hval] at hbeq
    subst hbeq
    simp only [decide_eq_true_eq] at hpred
    obtain ⟨hb0, hbi, hbd⟩ := hpred
    refine ⟨j, hj, rfl, hbi, ?_, ?_⟩
    · simpa using hbd
    · rw [← hkeyj, hkey]
      exact hc
  · rintro ⟨j, hj, rfl, hne, hd, hcell⟩
    obtain ⟨s, hsN, hsval⟩ := sortedVals_surj N R gmin (1 / w) pos hj
    obtain ⟨j2, hj2, hval2, hkey2⟩ := pipeline_slot N R gmin (1 / w) pos hsN
    have hj2j : j2 = j := by
      rw [hsval] at hval2
      omega
    subst hj2j
    constructor
    · rw [List.mem_map]
      refine ⟨(s : ℤ), ?_, ?_⟩
      · rw [List.mem_flatMap]
        refine ⟨cellOf R gmin (1 / w) pos j2, hcell, ?_⟩
        rw [cellSlots_mem _ (sortedKeys_sorted N R gmin (1 / w) pos)]
        refine ⟨by omega, ?_, ?_⟩
        · rw [sortedKeys_length]
          simpa using hsN
        · simpa using hkey2
      · simpa using hsval
    · simp only [decide_eq_true_eq]
      refine ⟨by omega, hne, ?_⟩
      simpa using hd

/-- **C2**.  With cell width at least twice the largest rule radius (`5`) and
all positions in the grid, the biased per-axis scan visits every cell that can
hold an agent strictly within any rule radius of agent `i`, and for every rule
radius `r ≤ 5` the set of in-range neighbors accumulated over the biased cells
equals the set accumulated over the full 27-cell scan. -/
theorem claimC2 (R : ℤ) (gmin : Vec3 ℚ) (w : ℚ) (N : ℕ) (pos : List (Vec3 ℚ)) (i : ℕ)
    (hw : 0 < w)
    (h2r : 2 * max (max rule1Distance rule2Distance) rule3Distance ≤ w)
    (hgrid : ∀ j, j < N → inGrid R gmin w (pos.getD j 0)) (hi : i < N) :
    (∀ j, j < N →
      dist2 (pos.getD i 0) (pos.getD j 0) <
        (max (max rule1Distance rule2Distance) rule3Distance) ^ 2 →
      computeCell R gmin (1 / w) (pos.getD j 0) ∈
        visitedCellIds R gmin (1 / w) (pos.getD i 0)) ∧
    (∀ r : ℚ, 0 < r → r ≤ max (max rule1Distance rule2Distance) rule3Distance →
      ∀ b : ℤ,
        b ∈ accumulatedNeighbors
            (kernIdentifyCellStartEnd (sortedKeys N R gmin (1 / w) pos)).1
            (kernIdentifyCellStartEnd (sortedKeys N R gmin (1 / w) pos)).2
            (sortedVals N R gmin (1 / w) pos) pos i r
            (visitedCellIds R gmin (1 / w) (pos.getD i 0)) ↔
        b ∈ accumulatedNeighbors
            (kernIdentifyCellStartEnd (sortedKeys N R gmin (1 / w) pos)).1
            (kernIdentifyCellStartEnd (sortedKeys N R gmin (1 / w) pos)).2
            (sortedVals N R gmin (1 / w) pos) pos i r
            (visitedCellIds27 R gmin (1 / w) (pos.getD i 0))) := by
  have h10 : (10 : ℚ) ≤ w := by
    rw [maxRuleDistance_eq] at h2r
    linarith
  rw [maxRuleDistance_eq]
  constructor
  · intro j hj hd
    have h25 : dist2 (pos.getD i 0) (pos.getD j 0) < 25 := by
      have h5 : ((5 : ℚ)) ^ 2 = 25 := by norm_num
      linarith [h5 ▸ hd]
    exact visited_covers hw h10 (hgrid i hi) (hgrid j hj) h25
  · intro r hr0 hr5 b
    rw [accumulatedNeighbors_mem, accumulatedNeighbors_mem]
    constructor
    · rintro ⟨j, hj, hbj, hne, hd, _⟩
      refine ⟨j, hj, hbj, hne, hd, ?_⟩
      have h25 : dist2 (pos.getD i 0) (pos.getD j 0) < 25 := by nlinarith
      exact visited27_covers hw h10 (hgrid i hi) (hgrid j hj) h25
    · rintro ⟨j, hj, hbj, hne, hd, _⟩
      refine ⟨j, hj, hbj, hne, hd, ?_⟩
      have h25 : dist2 (pos.getD i 0) (pos.getD j 0) < 25 := by nlinarith
      exact visited_covers hw h10 (hgrid i hi) (hgrid j hj) h25

/-- Witness for C2 at a concrete input: one boid at the origin, the default
grid parameters. -/
theorem claimC2_witness :
    ((0 : ℚ) < 10 ∧
      2 * max (max rule1Distance rule2Distance) rule3Distance ≤ (10 : ℚ) ∧
      (∀ j, j < 1 → inGrid 22 ⟨-110, -110, -110⟩ 10
        (([⟨0, 0, 0⟩] : List (Vec3 ℚ)).getD j 0)) ∧ (0 : ℕ) < 1) ∧
    ((∀ j, j < 1 →
      dist2 (([⟨0, 0, 0⟩] : List (Vec3 ℚ)).getD 0 0)
          (([⟨0, 0, 0⟩] : List (Vec3 ℚ)).getD j 0) <
        (max (max rule1Distance rule2Distance) rule3Distance) ^ 2 →
      computeCell 22 ⟨-110, -110, -110⟩ (1 / 10)
          (([⟨0, 0, 0⟩] : List (Vec3 ℚ)).getD j 0) ∈
        visitedCellIds 22 ⟨-110, -110, -110⟩ (1 / 10)
          (([⟨0, 0, 0⟩] : List (Vec3 ℚ)).getD 0 0)) ∧
    (∀ r : ℚ, 0 < r → r ≤ max (max rule1Distance rule2Distance) rule3Distance →
      ∀ b : ℤ,
        b ∈ accumulatedNeighbors
            (kernIdentifyCellStartEnd (sortedKeys 1 22 ⟨-110, -110, -110⟩ (1 / 10)
              [⟨0, 0, 0⟩])).1
            (kernIdentifyCellStartEnd (sortedKeys 1 22 ⟨-110, -110, -110⟩ (1 / 10)
              [⟨0, 0, 0⟩])).2
            (sortedVals 1 22 ⟨-110, -110, -110⟩ (1 / 10) [⟨0, 0, 0⟩]) [⟨0, 0, 0⟩] 0 r
            (visitedCellIds 22 ⟨-110, -110, -110⟩ (1 / 10)
              (([⟨0, 0, 0⟩] : List (Vec3 ℚ)).getD 0 0)) ↔
        b ∈ accumulatedNeighbors
            (kernIdentifyCellStartEnd (sortedKeys 1 22 ⟨-110, -110, -110⟩ (1 / 10)
              [⟨0, 0, 0⟩])).1
            (kernIdentifyCellStartEnd (sortedKeys 1 22 ⟨-110, -110, -110⟩ (1 / 10)
              [⟨0, 0, 0⟩])).2
            (sortedVals 1 22 ⟨-110, -110, -110⟩ (1 / 10) [⟨0, 0, 0⟩]) [⟨0, 0, 0⟩] 0 r
            (visitedCellIds27 22 ⟨-110, -110, -110⟩ (1 / 10)
              (([⟨0, 0, 0⟩] : List (Vec3 ℚ)).getD 0 0)))) :=
  ⟨⟨by norm_num,
    by norm_num [rule1Distance, rule2Distance, rule3Distance, max_def],
    by
      intro j hj
      have hj0 : j = 0 := by omega
      subst hj0
      norm_num [inGrid],
    by norm_num⟩,
   claimC2 22 ⟨-110, -110, -110⟩ 10 1 [⟨0, 0, 0⟩] 0
     (by norm_num)
     (by norm_num [rule1Distance, rule2Distance, rule3Distance, max_def])
     (by
       intro j hj
       have hj0 : j = 0 := by omega
       subst hj0
       norm_num [inGrid])
     (by norm_num)⟩

end Boids
